import Mathlib

/-!
The camera parameter store of gst-droid (`gstdroidcamsrcparams.c`).

A shallow embedding of `gst/droidcamsrc/gstdroidcamsrcparams.c`.

* A C string (`gchar *`) is a `List Char`; a possibly-`NULL` string is an
  `Option (List Char)`.
* A `GList *` of strings is a `List (List Char)`; the `NULL` list is `[]`.
* The `GHashTable` (string keys compared with `g_str_equal`) is an association
  list with at most one binding per key.  The order in which a
  `GHashTableIter` visits the bindings is not specified by GLib, so it is a
  parameter `iter` of the operations that iterate.
* `g_strdup`, `g_free`, `g_strfreev`, `g_slice_new0` only manage memory and
  are the identity here.
* The GLib / libc / GStreamer functions called by the file are modelled after
  their reference documentation; every call site passes a one-character
  delimiter literal, so delimiters are a `Char`.
-/

namespace GstDroid

/-! ## GLib and libc -/

/-- Cut a string at every occurrence of `d`: the first piece, and the pieces
that follow it. -/
def split_complete (d : Char) : List Char → List Char × List (List Char)
  | [] => ([], [])
  | c :: cs =>
    if c = d then ([], (split_complete d cs).1 :: (split_complete d cs).2)
    else (c :: (split_complete d cs).1, (split_complete d cs).2)

/-- Cut a string at the first `n` occurrences of `d` only; what is left after
the `n`-th cut is the last piece, delimiters included. -/
def split_bounded (d : Char) : Nat → List Char → List Char × List (List Char)
  | _, [] => ([], [])
  | 0, c :: cs => (c :: cs, [])
  | n + 1, c :: cs =>
    if c = d then ([], (split_bounded d n cs).1 :: (split_bounded d n cs).2)
    else (c :: (split_bounded d (n + 1) cs).1, (split_bounded d (n + 1) cs).2)

/-- GLib `g_strsplit (string, delimiter, max_tokens)`: the `NULL`-terminated
vector of pieces.  The empty string gives the empty vector; `max_tokens < 1`
splits completely; otherwise at most `max_tokens` pieces are made and the last
one holds the remainder of the string. -/
def g_strsplit (string : List Char) (delimiter : Char) (max_tokens : Int) :
    List (List Char) :=
  if string = [] then []
  else if max_tokens < 1 then
    (split_complete delimiter string).1 :: (split_complete delimiter string).2
  else
    (split_bounded delimiter (max_tokens.toNat - 1) string).1 ::
      (split_bounded delimiter (max_tokens.toNat - 1) string).2

/-- GLib `g_strrstr (haystack, needle)` for a one-character needle: the suffix of
`haystack` that starts at the last occurrence of the needle, `none` (`NULL`)
when there is no occurrence. -/
def g_strrstr : List Char → Char → Option (List Char)
  | [], _ => none
  | c :: cs, needle =>
    match g_strrstr cs needle with
    | some r => some r
    | none => if c = needle then some (c :: cs) else none

/-- GLib `g_list_append (list, data)`. -/
def g_list_append (list : List (List Char)) (data : List Char) : List (List Char) :=
  list ++ [data]

/-- GLib `g_list_length`. -/
def g_list_length (list : List (List Char)) : Nat := list.length

/-- GLib `g_list_nth (list, n)`: the `n`-th cell, `none` (`NULL`) off the end. -/
def g_list_nth (list : List (List Char)) (n : Nat) : Option (List Char) := list.get? n

/-- The `GHashTable` of the store: string keys, `GList` values. -/
abbrev GHashTable := List (List Char × List (List Char))

/-- GLib `g_hash_table_lookup`: the value bound to `key`, `none` when the key is
not in the table. -/
def g_hash_table_lookup : GHashTable → List Char → Option (List (List Char))
  | [], _ => none
  | (k, v) :: rest, key => if k = key then some v else g_hash_table_lookup rest key

/-- GLib `g_hash_table_insert`: a key already in the table keeps its place and
gets the new value (the old value is destroyed); a new key is added. -/
def g_hash_table_insert : GHashTable → List Char → List (List Char) → GHashTable
  | [], key, value => [(key, value)]
  | (k, v) :: rest, key, value =>
    if k = key then (k, value) :: rest else (k, v) :: g_hash_table_insert rest key value

/-- C `isspace` in the "C" locale. -/
def isspace (c : Char) : Bool :=
  c = ' ' || c = '\t' || c = '\n' || c = '\x0b' || c = '\x0c' || c = '\r'

/-- C `isdigit`. -/
def isdigit (c : Char) : Bool := decide (48 ≤ c.toNat) && decide (c.toNat ≤ 57)

/-- The value of the leading decimal digits of a string, continuing from `acc`. -/
def digits_value : Nat → List Char → Nat
  | acc, [] => acc
  | acc, c :: cs => if isdigit c then digits_value (acc * 10 + (c.toNat - 48)) cs else acc

/-- C `strtol (nptr, NULL, 10)` with a 64-bit `long`: leading white space is
skipped, an optional sign is read, then the leading digits; no digits give 0;
a value out of range is clamped to `LONG_MIN` / `LONG_MAX`. -/
def strtol (nptr : List Char) : Int :=
  let s := nptr.dropWhile isspace
  let v : Int :=
    match s with
    | '-' :: r => - (digits_value 0 r : Int)
    | '+' :: r => (digits_value 0 r : Int)
    | r => (digits_value 0 r : Int)
  if v < -9223372036854775808 then -9223372036854775808
  else if 9223372036854775807 < v then 9223372036854775807
  else v

/-- C `atoi (nptr)`, that is `(int) strtol (nptr, NULL, 10)`: the `long` is
converted to a 32-bit two's complement `int`. -/
def atoi (nptr : List Char) : Int :=
  (strtol nptr + 2147483648) % 4294967296 - 2147483648

/-! ## The store -/

/-- The C struct `GstDroidCamSrcParams`: the table, the mutex (`true` when
held) and the dirty flag. -/
structure GstDroidCamSrcParams where
  params : GHashTable
  lock : Bool
  is_dirty : Bool
deriving DecidableEq, Repr

/-- Source `gst_droidcamsrc_params_parse_key_values`: split `values` on `,`,
append every piece to a fresh list, bind `key` to the list. -/
def gst_droidcamsrc_params_parse_key_values (params : GHashTable) (key values : List Char) :
    GHashTable :=
  let value := g_strsplit values ',' (-1)
  let list := value.foldl g_list_append []
  g_hash_table_insert params key list

/-- Source `gst_droidcamsrc_params_parse_key_value`. -/
def gst_droidcamsrc_params_parse_key_value (params : GHashTable) (key value : List Char) :
    GHashTable :=
  if (g_strrstr value ',').isSome then
    gst_droidcamsrc_params_parse_key_values params key value
  else
    g_hash_table_insert params key (g_list_append [] value)

/-- Source `gst_droidcamsrc_params_parse`: `parts[0]` is the key, `parts[1]` the
value; the part is skipped when either pointer is `NULL`. -/
def gst_droidcamsrc_params_parse (params : GHashTable) (part : List Char) : GHashTable :=
  let parts := g_strsplit part '=' 2
  let key := parts.get? 0
  let value := if key.isSome then parts.get? 1 else none
  match key, value with
  | some k, some v => gst_droidcamsrc_params_parse_key_value params k v
  | _, _ => params

/-- Source `gst_droidcamsrc_params_new`, for a non-`NULL` argument. -/
def gst_droidcamsrc_params_new (params : List Char) : GstDroidCamSrcParams :=
  let parts := g_strsplit params ';' (-1)
  { params := parts.foldl gst_droidcamsrc_params_parse [],
    lock := false,
    is_dirty := false }

/-- The body of the `for (x = 0; x < len; x++)` loop of
`gst_droidcamsrc_params_to_string`: the first item starts the string with
`g_strdup_printf ("%s=%s", key, item->data)`, the following ones are added with
`g_strjoin (",", str, item->data, NULL)`.  The loop keeps `x < len`, so
`g_list_nth` always finds the cell. -/
def gst_droidcamsrc_params_to_string_item (key : List Char) (list : List (List Char))
    (str : Option (List Char)) (x : Nat) : Option (List Char) :=
  match g_list_nth list x with
  | none => str
  | some data =>
    match str with
    | none => some (key ++ '=' :: data)
    | some s => some (s ++ ',' :: data)

/-- The string `str` built by `gst_droidcamsrc_params_to_string` for one binding
whose list has `len > 0` cells: the `len == 1` branch, or the loop. -/
def gst_droidcamsrc_params_to_string_entry (key : List Char) (list : List (List Char)) :
    Option (List Char) :=
  let len := g_list_length list
  if len = 1 then
    match list with
    | data :: _ => some (key ++ '=' :: data)
    | [] => none
  else
    (List.range len).foldl (gst_droidcamsrc_params_to_string_item key list) none

/-- One round of the `while (g_hash_table_iter_next (...))` loop of
`gst_droidcamsrc_params_to_string`: `g_assert (len > 0)` aborts on an empty
list; otherwise `str` becomes `string`, or is joined to it with
`g_strjoin (";", string, str, NULL)`. -/
def gst_droidcamsrc_params_to_string_step (string : Option (List Char))
    (entry : List Char × List (List Char)) : Except String (Option (List Char)) :=
  if g_list_length entry.2 = 0 then
    Except.error "assertion failed: (len > 0)"
  else
    match string, gst_droidcamsrc_params_to_string_entry entry.1 entry.2 with
    | none, str => Except.ok str
    | some s, some str => Except.ok (some (s ++ ';' :: str))
    | some s, none => Except.ok (some s)

/-- Source `gst_droidcamsrc_params_to_string`.  `iter` gives the order in which
the `GHashTableIter` visits the bindings of a table.  The result is the
returned `gchar *` (`none` is `NULL`), or the failed assertion. -/
def gst_droidcamsrc_params_to_string (iter : GHashTable → GHashTable)
    (params : GstDroidCamSrcParams) : Except String (Option (List Char)) :=
  (iter params.params).foldlM gst_droidcamsrc_params_to_string_step none

/-- Source `gst_droidcamsrc_params_is_dirty`. -/
def gst_droidcamsrc_params_is_dirty (params : GstDroidCamSrcParams) : Bool :=
  params.is_dirty

/-- Source `gst_droidcamsrc_params_get_item_locked`: the list bound to `key`, the
`NULL` list when there is none. -/
def gst_droidcamsrc_params_get_item_locked (params : GstDroidCamSrcParams)
    (key : List Char) : List (List Char) :=
  match g_hash_table_lookup params.params key with
  | none => []
  | some list => list

/-- Source `gst_droidcamsrc_params_get_int_locked`. -/
def gst_droidcamsrc_params_get_int_locked (params : GstDroidCamSrcParams)
    (key : List Char) : Int :=
  match gst_droidcamsrc_params_get_item_locked params key with
  | [] => -1
  | data :: _ => atoi data

/-- Source `gst_droidcamsrc_params_parse_dimension`: the returned flag, then the
values left in `*w` and `*h`. -/
def gst_droidcamsrc_params_parse_dimension (d : List Char) : Bool × Int × Int :=
  let sizes := g_strsplit d 'x' (-1)
  let w : Int :=
    match sizes.get? 0 with
    | some s => atoi s
    | none => -1
  let h : Int :=
    if w ≠ -1 then
      match sizes.get? 1 with
      | some s => atoi s
      | none => -1
    else -1
  (decide (w ≠ -1) && decide (h ≠ -1), w, h)

/-! ## Capabilities -/

/-- Modelled from the spec: the header `gst/memory/gstgralloc.h`, which defines
`GST_CAPS_FEATURE_MEMORY_DROID_SURFACE`, is not among the sources; the spec
describes it as the fixed memory-kind tag of device-native surface memory. -/
inductive GstCapsFeatures where
  | MEMORY_DROID_SURFACE
  | MEMORY_SYSTEM_MEMORY
deriving DecidableEq, Repr

/-- One structure of a `GstCaps`, with its features: what
`gst_video_info_to_caps` writes for a `GstVideoInfo` of format
`GST_VIDEO_FORMAT_ENCODED` whose only fields set by the caller are the size
and the frame rate. -/
structure GstStructure where
  width : Int
  height : Int
  fps_n : Int
  fps_d : Int
  features : GstCapsFeatures
deriving DecidableEq, Repr

/-- A `GstCaps`: its structures, in order. -/
abbrev GstCaps := List GstStructure

/-- GStreamer `gst_caps_merge_structure_full`: the structure is appended unless
a structure of `caps` with equal features already expresses it (for these
fully fixed structures: unless it is already there). -/
def gst_caps_merge_structure_full (caps : GstCaps) (s : GstStructure) : GstCaps :=
  if s ∈ caps then caps else caps ++ [s]

/-- GStreamer `gst_caps_merge (caps1, caps2)`: "appends the structures contained
in caps2 to caps1 if they are not yet expressed by caps1". -/
def gst_caps_merge (caps1 caps2 : GstCaps) : GstCaps :=
  caps2.foldl gst_caps_merge_structure_full caps1

/-- The body of the `while (item)` loop of
`gst_droidcamsrc_params_get_viewfinder_caps`. -/
def gst_droidcamsrc_params_get_viewfinder_caps_item (fps : Int) (caps : GstCaps)
    (data : List Char) : GstCaps :=
  let r := gst_droidcamsrc_params_parse_dimension data
  if r.1 then
    let caps2 : GstCaps :=
      [{ width := r.2.1, height := r.2.2, fps_n := fps, fps_d := 1,
         features := GstCapsFeatures.MEMORY_DROID_SURFACE }]
    gst_caps_merge caps caps2
  else caps

/-- Source `gst_droidcamsrc_params_get_viewfinder_caps`; the result is the
returned `GstCaps *`. -/
def gst_droidcamsrc_params_get_viewfinder_caps (params : GstDroidCamSrcParams) :
    Option GstCaps :=
  let caps : GstCaps := []
  let fps := gst_droidcamsrc_params_get_int_locked params "preview-frame-rate".toList
  if fps = -1 then some caps
  else
    let item := gst_droidcamsrc_params_get_item_locked params "preview-size-values".toList
    if item = [] then some caps
    else some (item.foldl (gst_droidcamsrc_params_get_viewfinder_caps_item fps) caps)

/-- Source `gst_droidcamsrc_params_get_video_caps`: `caps` is `NULL`. -/
def gst_droidcamsrc_params_get_video_caps (_params : GstDroidCamSrcParams) :
    Option GstCaps :=
  none

/-- Source `gst_droidcamsrc_params_get_image_caps`: `caps` is `NULL`. -/
def gst_droidcamsrc_params_get_image_caps (_params : GstDroidCamSrcParams) :
    Option GstCaps :=
  none

/-! ## The mutex and the public operations as executions -/

/-- A call made on the `GMutex` of a store. -/
inductive GMutexCall where
  | lock
  | unlock
deriving DecidableEq, Repr

/-- A store during execution: the struct, and the calls made so far on its
mutex. -/
structure Exec where
  params : GstDroidCamSrcParams
  calls : List GMutexCall
deriving DecidableEq, Repr

/-- GLib `g_mutex_lock`: takes a free mutex.  A `GMutex` is not recursive: on a
mutex that is already held the call does not return (`none`). -/
def g_mutex_lock (s : Exec) : Option Exec :=
  if s.params.lock then none
  else some { params := { s.params with lock := true },
              calls := s.calls ++ [GMutexCall.lock] }

/-- GLib `g_mutex_unlock`: releases a held mutex; calling it on a mutex that is
not held is undefined (`none`). -/
def g_mutex_unlock (s : Exec) : Option Exec :=
  if s.params.lock then
    some { params := { s.params with lock := false },
           calls := s.calls ++ [GMutexCall.unlock] }
  else none

/-- Source `gst_droidcamsrc_params_to_string`, with its mutex calls.  When
`g_assert (len > 0)` fails the process is aborted inside the critical
section: the result is the failure and the state at that point. -/
def gst_droidcamsrc_params_to_string_exec (iter : GHashTable → GHashTable) (s : Exec) :
    Option (Except String (Option (List Char)) × Exec) :=
  match g_mutex_lock s with
  | none => none
  | some s1 =>
    match gst_droidcamsrc_params_to_string iter s1.params with
    | Except.error e => some (Except.error e, s1)
    | Except.ok string =>
      match g_mutex_unlock s1 with
      | none => none
      | some s2 => some (Except.ok string, s2)

/-- Source `gst_droidcamsrc_params_is_dirty`, with its mutex calls. -/
def gst_droidcamsrc_params_is_dirty_exec (s : Exec) : Option (Bool × Exec) :=
  match g_mutex_lock s with
  | none => none
  | some s1 =>
    let is_dirty := s1.params.is_dirty
    match g_mutex_unlock s1 with
    | none => none
    | some s2 => some (is_dirty, s2)

/-- The code at the label `unlock_and_out` of
`gst_droidcamsrc_params_get_viewfinder_caps`: unlock, then return `caps`. -/
def gst_droidcamsrc_params_get_viewfinder_caps_unlock_and_out (caps : GstCaps) (s : Exec) :
    Option (Option GstCaps × Exec) :=
  match g_mutex_unlock s with
  | none => none
  | some s2 => some (some caps, s2)

/-- Source `gst_droidcamsrc_params_get_viewfinder_caps`, with its mutex calls
and its two `goto unlock_and_out`. -/
def gst_droidcamsrc_params_get_viewfinder_caps_exec (s : Exec) :
    Option (Option GstCaps × Exec) :=
  let caps : GstCaps := []
  match g_mutex_lock s with
  | none => none
  | some s1 =>
    let fps := gst_droidcamsrc_params_get_int_locked s1.params "preview-frame-rate".toList
    if fps = -1 then
      gst_droidcamsrc_params_get_viewfinder_caps_unlock_and_out caps s1
    else
      let item :=
        gst_droidcamsrc_params_get_item_locked s1.params "preview-size-values".toList
      if item = [] then
        gst_droidcamsrc_params_get_viewfinder_caps_unlock_and_out caps s1
      else
        gst_droidcamsrc_params_get_viewfinder_caps_unlock_and_out
          (item.foldl (gst_droidcamsrc_params_get_viewfinder_caps_item fps) caps) s1

/-- Source `gst_droidcamsrc_params_get_video_caps`, with its mutex calls. -/
def gst_droidcamsrc_params_get_video_caps_exec (s : Exec) : Option (Option GstCaps × Exec) :=
  let caps : Option GstCaps := none
  match g_mutex_lock s with
  | none => none
  | some s1 =>
    match g_mutex_unlock s1 with
    | none => none
    | some s2 => some (caps, s2)

/-- Source `gst_droidcamsrc_params_get_image_caps`, with its mutex calls. -/
def gst_droidcamsrc_params_get_image_caps_exec (s : Exec) : Option (Option GstCaps × Exec) :=
  let caps : Option GstCaps := none
  match g_mutex_lock s with
  | none => none
  | some s1 =>
    match g_mutex_unlock s1 with
    | none => none
    | some s2 => some (caps, s2)

/-- The public operations of the file that work on an existing store. -/
inductive PublicOp where
  | to_string
  | is_dirty
  | get_viewfinder_caps
  | get_video_caps
  | get_image_caps
deriving DecidableEq, Repr

/-- The state after a caller runs one public operation and drops its result;
`none` when the operation does not return (mutex misuse, failed assertion). -/
def call_public (iter : GHashTable → GHashTable) (op : PublicOp) (s : Exec) : Option Exec :=
  match op with
  | PublicOp.to_string =>
    match gst_droidcamsrc_params_to_string_exec iter s with
    | some (Except.ok _, s2) => some s2
    | _ => none
  | PublicOp.is_dirty => (gst_droidcamsrc_params_is_dirty_exec s).map Prod.snd
  | PublicOp.get_viewfinder_caps =>
    (gst_droidcamsrc_params_get_viewfinder_caps_exec s).map Prod.snd
  | PublicOp.get_video_caps => (gst_droidcamsrc_params_get_video_caps_exec s).map Prod.snd
  | PublicOp.get_image_caps => (gst_droidcamsrc_params_get_image_caps_exec s).map Prod.snd

/-- The state after a caller runs a sequence of public operations, one after
the other. -/
def call_sequence (iter : GHashTable → GHashTable) : List PublicOp → Exec → Option Exec
  | [], s => some s
  | op :: ops, s =>
    match call_public iter op s with
    | none => none
    | some s2 => call_sequence iter ops s2

/-- Whether a string starts with a decimal digit. -/
def starts_with_digit : List Char → Bool
  | [] => false
  | c :: _ => isdigit c

/-- The strings in which `strtol` finds no digit to convert: after the white
space and one optional sign, the next character is not a digit. -/
def no_digits (nptr : List Char) : Bool :=
  match nptr.dropWhile isspace with
  | '-' :: r => !starts_with_digit r
  | '+' :: r => !starts_with_digit r
  | r => !starts_with_digit r

/-! ## Auxiliary predicates -/

/-- What the parser guarantees of every binding it makes: the key has no `=`
and no `;`, the list is not empty, and no value has a `;` or a `,`. -/
def entry_clean (e : List Char × List (List Char)) : Prop :=
  '=' ∉ e.1 ∧ ';' ∉ e.1 ∧ e.2 ≠ [] ∧ ∀ v ∈ e.2, ';' ∉ v ∧ ',' ∉ v

/-! ## Lemmas on the library functions -/

theorem intercalate_single (sep x : List Char) : List.intercalate sep [x] = x := by
  simp [List.intercalate]

theorem intercalate_cons_cons (sep x y : List Char) (ys : List (List Char)) :
    List.intercalate sep (x :: y :: ys) = x ++ sep ++ List.intercalate sep (y :: ys) := by
  simp [List.intercalate]

theorem split_complete_join (d : Char) (s : List Char) :
    List.intercalate [d] ((split_complete d s).1 :: (split_complete d s).2) = s := by
  induction s with
  | nil => simp [split_complete, List.intercalate]
  | cons c cs ih =>
    by_cases h : c = d
    · simp only [split_complete, h, if_true]
      rw [intercalate_cons_cons, ih]; simp
    · simp only [split_complete, h, if_false]
      cases hr : (split_complete d cs).2 with
      | nil => rw [hr] at ih; simp [intercalate_single] at ih ⊢; exact ih
      | cons p ps =>
        rw [hr] at ih
        rw [intercalate_cons_cons] at ih ⊢
        simp at ih ⊢; exact ih

theorem split_complete_no_delim (d : Char) (s : List Char) :
    ∀ p ∈ (split_complete d s).1 :: (split_complete d s).2, d ∉ p := by
  induction s with
  | nil => simp [split_complete]
  | cons c cs ih =>
    by_cases h : c = d
    · simp only [split_complete, h, if_true]
      intro p hp
      rcases List.mem_cons.1 hp with rfl | hp
      · simp
      · exact ih p hp
    · simp only [split_complete, h, if_false]
      intro p hp
      rcases List.mem_cons.1 hp with rfl | hp
      · have := ih _ (List.mem_cons_self _ _)
        simp only [List.mem_cons, not_or]
        exact ⟨fun e => h e.symm, this⟩
      · exact ih p (List.mem_cons_of_mem _ hp)

theorem split_complete_length (d : Char) (s : List Char) :
    (split_complete d s).2.length = s.count d := by
  induction s with
  | nil => simp [split_complete]
  | cons c cs ih =>
    by_cases h : c = d
    · simp [split_complete, h, ih]
    · simp [split_complete, h, ih, List.count_cons]

theorem split_complete_of_not_mem (d : Char) (s : List Char) (h : d ∉ s) :
    split_complete d s = (s, []) := by
  induction s with
  | nil => simp [split_complete]
  | cons c cs ih =>
    simp only [List.mem_cons, not_or] at h
    have hc : ¬ c = d := fun e => h.1 e.symm
    simp [split_complete, hc, ih h.2]

theorem split_complete_append (d : Char) (a b : List Char) :
    split_complete d (a ++ d :: b) =
      ((split_complete d a).1,
        (split_complete d a).2 ++ (split_complete d b).1 :: (split_complete d b).2) := by
  induction a with
  | nil => simp [split_complete]
  | cons c cs ih =>
    by_cases h : c = d
    · simp [split_complete, h, ih]
    · simp [split_complete, h, ih]

theorem split_complete_intercalate (d : Char) (ps : List (List Char)) :
    ∀ p : List Char, (∀ q ∈ p :: ps, d ∉ q) →
      split_complete d (List.intercalate [d] (p :: ps)) = (p, ps) := by
  induction ps with
  | nil =>
    intro p h
    rw [intercalate_single]
    exact split_complete_of_not_mem d p (h p (List.mem_cons_self _ _))
  | cons q qs ih =>
    intro p h
    have hp : d ∉ p := h p (List.mem_cons_self _ _)
    have hq : ∀ r ∈ q :: qs, d ∉ r := fun r hr => h r (List.mem_cons_of_mem _ hr)
    rw [intercalate_cons_cons]
    have e : p ++ [d] ++ List.intercalate [d] (q :: qs) =
        p ++ d :: List.intercalate [d] (q :: qs) := by simp
    rw [e, split_complete_append, split_complete_of_not_mem d p hp, ih q hq]
    simp

theorem split_bounded_of_not_mem (d : Char) (n : Nat) (s : List Char) (h : d ∉ s) :
    split_bounded d n s = (s, []) := by
  induction s with
  | nil => cases n <;> simp [split_bounded]
  | cons c cs ih =>
    simp only [List.mem_cons, not_or] at h
    have hc : ¬ c = d := fun e => h.1 e.symm
    cases n with
    | zero => simp [split_bounded]
    | succ m => simp [split_bounded, hc, ih h.2]

theorem split_bounded_one_append (d : Char) (k v : List Char) (h : d ∉ k) :
    split_bounded d 1 (k ++ d :: v) = (k, [v]) := by
  induction k with
  | nil =>
    cases v with
    | nil => simp [split_bounded]
    | cons c cs => simp [split_bounded]
  | cons c cs ih =>
    simp only [List.mem_cons, not_or] at h
    have hc : ¬ c = d := fun e => h.1 e.symm
    simp [split_bounded, hc, ih h.2]

theorem g_strrstr_isSome (s : List Char) (c : Char) :
    (g_strrstr s c).isSome = true ↔ c ∈ s := by
  induction s with
  | nil => simp [g_strrstr]
  | cons a as ih =>
    simp only [g_strrstr, List.mem_cons]
    cases hr : g_strrstr as c with
    | some r =>
      rw [hr] at ih
      simp only [Option.isSome_some, true_iff] at ih
      simp [ih]
    | none =>
      rw [hr] at ih
      have hn : c ∉ as := by
        intro hc
        have := ih.2 hc
        simp at this
      by_cases hac : a = c
      · simp [hac]
      · have hca : ¬ c = a := fun e => hac e.symm
        simp [hac, hca, hn]

theorem foldl_g_list_append (l acc : List (List Char)) :
    l.foldl g_list_append acc = acc ++ l := by
  induction l generalizing acc with
  | nil => simp
  | cons x xs ih => simp [List.foldl, ih, g_list_append]

/-- Every string either has no `d`, or is a `d`-free prefix, then `d`, then a rest. -/
theorem exists_first_delim (d : Char) (s : List Char) :
    d ∉ s ∨ ∃ k v, s = k ++ d :: v ∧ d ∉ k := by
  induction s with
  | nil => left; simp
  | cons c cs ih =>
    by_cases hc : c = d
    · right; exact ⟨[], cs, by simp [hc], by simp⟩
    · rcases ih with h | ⟨k, v, e, hk⟩
      · left
        simp only [List.mem_cons, not_or]
        exact ⟨fun e => hc e.symm, h⟩
      · right
        refine ⟨c :: k, v, by simp [e], ?_⟩
        simp only [List.mem_cons, not_or]
        exact ⟨fun e => hc e.symm, hk⟩

theorem g_strsplit_complete_ne_nil (s : List Char) (d : Char) (h : s ≠ []) :
    g_strsplit s d (-1) = (split_complete d s).1 :: (split_complete d s).2 := by
  simp [g_strsplit, h]

theorem g_strsplit_two_of_not_mem (s : List Char) (d : Char) (h : s ≠ []) (hd : d ∉ s) :
    g_strsplit s d 2 = [s] := by
  simp [g_strsplit, h, split_bounded_of_not_mem d _ s hd]

theorem g_strsplit_two_append (k v : List Char) (d : Char) (hd : d ∉ k) :
    g_strsplit (k ++ d :: v) d 2 = [k, v] := by
  simp [g_strsplit, split_bounded_one_append d k v hd]

/-! ## Lemmas on the hash table -/

theorem lookup_insert (t : GHashTable) (k k' : List Char) (v : List (List Char)) :
    g_hash_table_lookup (g_hash_table_insert t k v) k' =
      if k = k' then some v else g_hash_table_lookup t k' := by
  induction t with
  | nil => simp [g_hash_table_insert, g_hash_table_lookup]
  | cons e rest ih =>
    obtain ⟨a, b⟩ := e
    by_cases h : a = k
    · subst h
      by_cases h' : a = k' <;> simp [g_hash_table_insert, g_hash_table_lookup, h']
    · by_cases h' : a = k'
      · subst h'
        have hk : ¬ k = a := fun e => h e.symm
        simp [g_hash_table_insert, g_hash_table_lookup, h, hk]
      · simp [g_hash_table_insert, g_hash_table_lookup, h, h', ih]

theorem lookup_eq_none_iff (t : GHashTable) (k : List Char) :
    g_hash_table_lookup t k = none ↔ k ∉ t.map Prod.fst := by
  induction t with
  | nil => simp [g_hash_table_lookup]
  | cons e rest ih =>
    obtain ⟨a, b⟩ := e
    by_cases h : a = k
    · simp [g_hash_table_lookup, h]
    · have hk : ¬ k = a := fun e => h e.symm
      simp only [g_hash_table_lookup, h, if_false, ih]
      simp [hk]

theorem mem_of_lookup_eq_some (t : GHashTable) (k : List Char) (v : List (List Char))
    (h : g_hash_table_lookup t k = some v) : (k, v) ∈ t := by
  induction t with
  | nil => simp [g_hash_table_lookup] at h
  | cons e rest ih =>
    obtain ⟨a, b⟩ := e
    by_cases hk : a = k
    · simp [g_hash_table_lookup, hk] at h
      simp [hk, h]
    · simp only [g_hash_table_lookup, hk, if_false] at h
      exact List.mem_cons_of_mem _ (ih h)

theorem lookup_eq_some_of_mem (t : GHashTable) (hn : (t.map Prod.fst).Nodup)
    (k : List Char) (v : List (List Char)) (h : (k, v) ∈ t) :
    g_hash_table_lookup t k = some v := by
  induction t with
  | nil => simp at h
  | cons e rest ih =>
    obtain ⟨a, b⟩ := e
    simp only [List.map_cons, List.nodup_cons] at hn
    rcases List.mem_cons.1 h with e | h'
    · have e1 : a = k := (congrArg Prod.fst e).symm
      have e2 : b = v := (congrArg Prod.snd e).symm
      simp [g_hash_table_lookup, e1, e2]
    · have hne : ¬ a = k := by
        intro e
        apply hn.1
        rw [e]
        exact List.mem_map_of_mem Prod.fst h'
      simp only [g_hash_table_lookup, hne, if_false]
      exact ih hn.2 h'

theorem lookup_perm (l t : GHashTable) (hp : l.Perm t) (hn : (t.map Prod.fst).Nodup)
    (k : List Char) : g_hash_table_lookup l k = g_hash_table_lookup t k := by
  have hnl : (l.map Prod.fst).Nodup := (hp.map Prod.fst).nodup_iff.2 hn
  cases h : g_hash_table_lookup t k with
  | none =>
    rw [lookup_eq_none_iff] at h ⊢
    intro hk
    exact h ((hp.map Prod.fst).mem_iff.1 hk)
  | some v =>
    exact lookup_eq_some_of_mem l hnl k v (hp.mem_iff.2 (mem_of_lookup_eq_some t k v h))

theorem insert_of_not_mem (t : GHashTable) (k : List Char) (v : List (List Char))
    (h : k ∉ t.map Prod.fst) : g_hash_table_insert t k v = t ++ [(k, v)] := by
  induction t with
  | nil => simp [g_hash_table_insert]
  | cons e rest ih =>
    obtain ⟨a, b⟩ := e
    simp only [List.map_cons, List.mem_cons, not_or] at h
    have hne : ¬ a = k := fun e => h.1 e.symm
    simp [g_hash_table_insert, hne, ih h.2]

theorem keys_insert (t : GHashTable) (k : List Char) (v : List (List Char)) :
    (g_hash_table_insert t k v).map Prod.fst =
      if k ∈ t.map Prod.fst then t.map Prod.fst else t.map Prod.fst ++ [k] := by
  induction t with
  | nil => simp [g_hash_table_insert]
  | cons e rest ih =>
    obtain ⟨a, b⟩ := e
    by_cases h : a = k
    · simp [g_hash_table_insert, h]
    · have hk : ¬ k = a := fun e => h e.symm
      by_cases hm : k ∈ rest.map Prod.fst
      · simp only [g_hash_table_insert, h, if_false, List.map_cons, ih, hm, if_true]
        simp [hm]
      · simp only [g_hash_table_insert, h, if_false, List.map_cons, ih, hm]
        simp [hk, hm]

theorem nodup_keys_insert (t : GHashTable) (k : List Char) (v : List (List Char))
    (hn : (t.map Prod.fst).Nodup) : ((g_hash_table_insert t k v).map Prod.fst).Nodup := by
  rw [keys_insert]
  by_cases hm : k ∈ t.map Prod.fst
  · simp [hm, hn]
  · simp only [hm, if_false]
    rw [List.nodup_append]
    refine ⟨hn, List.nodup_singleton k, ?_⟩
    intro a ha hb
    simp only [List.mem_singleton] at hb
    exact hm (hb ▸ ha)

theorem mem_insert (t : GHashTable) (k : List Char) (v : List (List Char))
    (e : List Char × List (List Char)) (h : e ∈ g_hash_table_insert t k v) :
    e = (k, v) ∨ e ∈ t := by
  induction t with
  | nil => simp [g_hash_table_insert] at h; exact Or.inl h
  | cons x rest ih =>
    obtain ⟨a, b⟩ := x
    by_cases hk : a = k
    · simp only [g_hash_table_insert, hk, if_true, List.mem_cons] at h
      rcases h with h | h
      · exact Or.inl h
      · exact Or.inr (List.mem_cons_of_mem _ h)
    · simp only [g_hash_table_insert, hk, if_false, List.mem_cons] at h
      rcases h with h | h
      · exact Or.inr (h ▸ List.mem_cons_self _ _)
      · rcases ih h with h | h
        · exact Or.inl h
        · exact Or.inr (List.mem_cons_of_mem _ h)

/-! ## Lemmas on parsing -/

theorem parse_key_value_eq (params : GHashTable) (key value : List Char) :
    gst_droidcamsrc_params_parse_key_value params key value =
      g_hash_table_insert params key
        (if ',' ∈ value then (split_complete ',' value).1 :: (split_complete ',' value).2
         else [value]) := by
  unfold gst_droidcamsrc_params_parse_key_value
  by_cases h : ',' ∈ value
  · have hs : (g_strrstr value ',').isSome = true := (g_strrstr_isSome value ',').2 h
    have hne : value ≠ [] := by
      intro e
      rw [e] at h
      simp at h
    simp only [hs, if_true, h, gst_droidcamsrc_params_parse_key_values,
      g_strsplit_complete_ne_nil value ',' hne, foldl_g_list_append, List.nil_append]
  · have hs : ¬ (g_strrstr value ',').isSome = true := fun e => h ((g_strrstr_isSome value ',').1 e)
    simp [hs, h, g_list_append]

theorem parse_of_not_mem (params : GHashTable) (part : List Char) (h : '=' ∉ part) :
    gst_droidcamsrc_params_parse params part = params := by
  unfold gst_droidcamsrc_params_parse
  by_cases hp : part = []
  · simp [hp, g_strsplit]
  · simp [g_strsplit_two_of_not_mem part '=' hp h]

theorem parse_append (params : GHashTable) (k v : List Char) (h : '=' ∉ k) :
    gst_droidcamsrc_params_parse params (k ++ '=' :: v) =
      gst_droidcamsrc_params_parse_key_value params k v := by
  unfold gst_droidcamsrc_params_parse
  simp [g_strsplit_two_append k v '=' h]

theorem split_complete_mem_sub (d : Char) (s : List Char) :
    ∀ p ∈ (split_complete d s).1 :: (split_complete d s).2, ∀ c ∈ p, c ∈ s := by
  induction s with
  | nil => simp [split_complete]
  | cons a as ih =>
    by_cases h : a = d
    · simp only [split_complete, h, if_true]
      intro p hp c hc
      rcases List.mem_cons.1 hp with rfl | hp
      · simp at hc
      · exact List.mem_cons_of_mem _ (ih p hp c hc)
    · simp only [split_complete, h, if_false]
      intro p hp c hc
      rcases List.mem_cons.1 hp with rfl | hp
      · rcases List.mem_cons.1 hc with rfl | hc
        · exact List.mem_cons_self _ _
        · exact List.mem_cons_of_mem _ (ih _ (List.mem_cons_self _ _) c hc)
      · exact List.mem_cons_of_mem _ (ih p (List.mem_cons_of_mem _ hp) c hc)

theorem g_strsplit_no_delim (s : List Char) (d : Char) :
    ∀ p ∈ g_strsplit s d (-1), d ∉ p := by
  by_cases h : s = []
  · simp [g_strsplit, h]
  · rw [g_strsplit_complete_ne_nil s d h]
    exact split_complete_no_delim d s

/-- Every part is without `=`, or is a key without `=`, then `=`, then a value;
in the second case the parser binds the key. -/
theorem parse_cases (part : List Char) :
    ('=' ∉ part ∧ ∀ params, gst_droidcamsrc_params_parse params part = params) ∨
    ∃ k v, part = k ++ '=' :: v ∧ '=' ∉ k ∧
      ∀ params, gst_droidcamsrc_params_parse params part =
        g_hash_table_insert params k
          (if ',' ∈ v then (split_complete ',' v).1 :: (split_complete ',' v).2 else [v]) := by
  rcases exists_first_delim '=' part with h | ⟨k, v, e, hk⟩
  · exact Or.inl ⟨h, fun params => parse_of_not_mem params part h⟩
  · refine Or.inr ⟨k, v, e, hk, fun params => ?_⟩
    rw [e, parse_append params k v hk, parse_key_value_eq]

theorem value_list_clean (k v : List Char) (hk1 : '=' ∉ k) (hk2 : ';' ∉ k) (hv : ';' ∉ v) :
    entry_clean (k, if ',' ∈ v then (split_complete ',' v).1 :: (split_complete ',' v).2
      else [v]) := by
  refine ⟨hk1, hk2, ?_, ?_⟩
  · by_cases h : ',' ∈ v <;> simp [h]
  · by_cases h : ',' ∈ v
    · simp only [h, if_true]
      intro p hp
      refine ⟨fun hc => hv (split_complete_mem_sub ',' v p hp _ hc), ?_⟩
      exact split_complete_no_delim ',' v p hp
    · simp only [h, if_false]
      intro p hp
      simp only [List.mem_singleton] at hp
      subst hp
      exact ⟨hv, h⟩

theorem parse_clean (params : GHashTable) (part : List Char) (hp : ';' ∉ part)
    (h : ∀ e ∈ params, entry_clean e) :
    ∀ e ∈ gst_droidcamsrc_params_parse params part, entry_clean e := by
  rcases parse_cases part with ⟨_, hq⟩ | ⟨k, v, e, hk, hq⟩
  · rw [hq]; exact h
  · rw [hq]
    intro x hx
    rcases mem_insert _ _ _ _ hx with hx | hx
    · rw [hx]
      apply value_list_clean k v hk
      · intro hc; apply hp; rw [e]; simp [hc]
      · intro hc; apply hp; rw [e]; simp [hc]
    · exact h x hx

theorem parse_nodup (params : GHashTable) (part : List Char)
    (h : (params.map Prod.fst).Nodup) :
    ((gst_droidcamsrc_params_parse params part).map Prod.fst).Nodup := by
  rcases parse_cases part with ⟨_, hq⟩ | ⟨k, v, _, _, hq⟩
  · rw [hq]; exact h
  · rw [hq]; exact nodup_keys_insert _ _ _ h

theorem foldl_parse_inv (P : GHashTable → Prop) (parts : List (List Char))
    (hstep : ∀ t, ∀ p ∈ parts, P t → P (gst_droidcamsrc_params_parse t p)) :
    ∀ t, P t → P (parts.foldl gst_droidcamsrc_params_parse t) := by
  induction parts with
  | nil => intro t ht; exact ht
  | cons p ps ih =>
    intro t ht
    simp only [List.foldl_cons]
    apply ih (fun t q hq => hstep t q (List.mem_cons_of_mem _ hq))
    exact hstep t p (List.mem_cons_self _ _) ht

theorem new_clean (text : List Char) :
    ∀ e ∈ (gst_droidcamsrc_params_new text).params, entry_clean e := by
  unfold gst_droidcamsrc_params_new
  apply foldl_parse_inv (fun t => ∀ e ∈ t, entry_clean e)
  · intro t p hp ht
    exact parse_clean t p (g_strsplit_no_delim text ';' p hp) ht
  · intro e he; simp at he

theorem new_nodup (text : List Char) :
    ((gst_droidcamsrc_params_new text).params.map Prod.fst).Nodup := by
  unfold gst_droidcamsrc_params_new
  apply foldl_parse_inv (fun t => (t.map Prod.fst).Nodup)
  · intro t p _ ht
    exact parse_nodup t p ht
  · simp

/-! ## Lemmas on serialization -/

theorem to_string_item_loop (key : List Char) (l : List (List Char)) :
    ∀ acc : Option (List Char),
      (List.range (g_list_length l)).foldl (gst_droidcamsrc_params_to_string_item key l) acc =
        l.foldl (fun str data =>
          match str with
          | none => some (key ++ '=' :: data)
          | some s => some (s ++ ',' :: data)) acc := by
  induction l using List.reverseRecOn with
  | nil => intro acc; simp [g_list_length]
  | append_singleton l a ih =>
    intro acc
    have hlen : g_list_length (l ++ [a]) = g_list_length l + 1 := by simp [g_list_length]
    rw [hlen, List.range_succ, List.foldl_append, List.foldl_append]
    have hext : (List.range (g_list_length l)).foldl
          (gst_droidcamsrc_params_to_string_item key (l ++ [a])) acc =
        (List.range (g_list_length l)).foldl
          (gst_droidcamsrc_params_to_string_item key l) acc := by
      apply List.foldl_ext
      intro s x hx
      have hx' : x < l.length := by simpa [g_list_length] using hx
      simp [gst_droidcamsrc_params_to_string_item, g_list_nth, List.getElem?_append_left hx']
    rw [hext, ih acc]
    simp [gst_droidcamsrc_params_to_string_item, g_list_nth, g_list_length]

theorem to_string_values_tail (key : List Char) (ds : List (List Char)) :
    ∀ s d : List Char,
      ds.foldl (fun str data =>
          match str with
          | none => some (key ++ '=' :: data)
          | some s => some (s ++ ',' :: data)) (some (s ++ d)) =
        some (s ++ List.intercalate [','] (d :: ds)) := by
  induction ds with
  | nil => intro s d; simp [intercalate_single]
  | cons e es ih =>
    intro s d
    simp only [List.foldl_cons]
    have h := ih (s ++ d ++ [',']) e
    have e1 : s ++ d ++ [','] ++ e = s ++ d ++ ',' :: e := by simp
    rw [e1] at h
    rw [h, intercalate_cons_cons]
    simp

theorem to_string_entry_eq (key : List Char) (vs : List (List Char)) (h : vs ≠ []) :
    gst_droidcamsrc_params_to_string_entry key vs =
      some (key ++ '=' :: List.intercalate [','] vs) := by
  unfold gst_droidcamsrc_params_to_string_entry
  cases vs with
  | nil => exact absurd rfl h
  | cons d ds =>
    cases ds with
    | nil => simp [g_list_length, intercalate_single]
    | cons e es =>
      have hl : ¬ g_list_length (d :: e :: es) = 1 := by simp [g_list_length]
      simp only [hl, if_false]
      rw [to_string_item_loop]
      simp only [List.foldl_cons]
      have h2 := to_string_values_tail key (e :: es) (key ++ ['=']) d
      have e1 : key ++ ['='] ++ d = key ++ '=' :: d := by simp
      rw [e1] at h2
      simp only [List.foldl_cons] at h2
      rw [h2]
      simp

theorem to_string_fold_tail (es : GHashTable) (hne : ∀ e ∈ es, e.2 ≠ []) :
    ∀ s x : List Char,
      es.foldlM gst_droidcamsrc_params_to_string_step (some (s ++ x)) =
        Except.ok (some (s ++ List.intercalate [';']
          (x :: es.map (fun e => e.1 ++ '=' :: List.intercalate [','] e.2)))) := by
  induction es with
  | nil => intro s x; simp [intercalate_single, pure, Except.pure]
  | cons e rest ih =>
    intro s x
    have he : e.2 ≠ [] := hne e (List.mem_cons_self _ _)
    have hl : ¬ g_list_length e.2 = 0 := by
      simpa [g_list_length] using he
    simp only [List.foldlM_cons, gst_droidcamsrc_params_to_string_step, hl, if_false,
      to_string_entry_eq e.1 e.2 he]
    have h := ih (fun y hy => hne y (List.mem_cons_of_mem _ hy)) (s ++ x ++ [';'])
      (e.1 ++ '=' :: List.intercalate [','] e.2)
    have e1 : s ++ x ++ [';'] ++ (e.1 ++ '=' :: List.intercalate [','] e.2) =
        s ++ x ++ ';' :: (e.1 ++ '=' :: List.intercalate [','] e.2) := by simp
    rw [e1] at h
    simp only [bind, Except.bind]
    rw [h, List.map_cons, intercalate_cons_cons]
    simp

theorem to_string_fold (es : GHashTable) (hne : ∀ e ∈ es, e.2 ≠ []) (h : es ≠ []) :
    es.foldlM gst_droidcamsrc_params_to_string_step none =
      Except.ok (some (List.intercalate [';']
        (es.map (fun e => e.1 ++ '=' :: List.intercalate [','] e.2)))) := by
  cases es with
  | nil => exact absurd rfl h
  | cons e rest =>
    have he : e.2 ≠ [] := hne e (List.mem_cons_self _ _)
    have hl : ¬ g_list_length e.2 = 0 := by
      simpa [g_list_length] using he
    simp only [List.foldlM_cons, gst_droidcamsrc_params_to_string_step, hl, if_false,
      to_string_entry_eq e.1 e.2 he]
    have h2 := to_string_fold_tail rest (fun y hy => hne y (List.mem_cons_of_mem _ hy)) []
      (e.1 ++ '=' :: List.intercalate [','] e.2)
    simp only [List.nil_append] at h2
    simp only [bind, Except.bind]
    rw [h2, List.map_cons]

/-! ## Lemmas on parsing a serialized table -/

theorem mem_intercalate (sep : List Char) (c : Char) (l : List (List Char))
    (h : c ∈ List.intercalate sep l) : c ∈ sep ∨ ∃ v ∈ l, c ∈ v := by
  induction l with
  | nil => simp [List.intercalate] at h
  | cons x xs ih =>
    cases xs with
    | nil =>
      rw [intercalate_single] at h
      exact Or.inr ⟨x, List.mem_cons_self _ _, h⟩
    | cons y ys =>
      rw [intercalate_cons_cons] at h
      simp only [List.mem_append] at h
      rcases h with (h | h) | h
      · exact Or.inr ⟨x, List.mem_cons_self _ _, h⟩
      · exact Or.inl h
      · rcases ih h with h | ⟨v, hv, hc⟩
        · exact Or.inl h
        · exact Or.inr ⟨v, List.mem_cons_of_mem _ hv, hc⟩

theorem entry_string_no_semicolon (e : List Char × List (List Char)) (h : entry_clean e) :
    ';' ∉ e.1 ++ '=' :: List.intercalate [','] e.2 := by
  obtain ⟨_, h2, _, h4⟩ := h
  intro hc
  simp only [List.mem_append, List.mem_cons] at hc
  rcases hc with hc | hc | hc
  · exact h2 hc
  · exact absurd hc (by decide)
  · rcases mem_intercalate _ _ _ hc with hc | ⟨v, hv, hc⟩
    · simp at hc
    · exact (h4 v hv).1 hc

theorem parse_entry_string (e : List Char × List (List Char)) (h : entry_clean e)
    (t : GHashTable) :
    gst_droidcamsrc_params_parse t (e.1 ++ '=' :: List.intercalate [','] e.2) =
      g_hash_table_insert t e.1 e.2 := by
  obtain ⟨k, vs⟩ := e
  obtain ⟨h1, _, h3, h4⟩ := h
  simp only at h1 h3 h4 ⊢
  rw [parse_append t k _ h1, parse_key_value_eq]
  congr 1
  cases vs with
  | nil => exact absurd rfl h3
  | cons d ds =>
    cases ds with
    | nil =>
      have hd : ',' ∉ d := (h4 d (List.mem_cons_self _ _)).2
      simp [intercalate_single, hd]
    | cons x xs =>
      have hm : ',' ∈ List.intercalate [','] (d :: x :: xs) := by
        rw [intercalate_cons_cons]; simp
      simp only [hm, if_true]
      have hs := split_complete_intercalate ',' (x :: xs) d (fun q hq => (h4 q hq).2)
      rw [hs]

theorem foldl_parse_entry_strings (es : GHashTable) (h : ∀ e ∈ es, entry_clean e) :
    ∀ t : GHashTable,
      (es.map (fun e => e.1 ++ '=' :: List.intercalate [','] e.2)).foldl
          gst_droidcamsrc_params_parse t =
        es.foldl (fun t e => g_hash_table_insert t e.1 e.2) t := by
  induction es with
  | nil => intro t; rfl
  | cons e rest ih =>
    intro t
    simp only [List.map_cons, List.foldl_cons]
    rw [parse_entry_string e (h e (List.mem_cons_self _ _)) t]
    exact ih (fun y hy => h y (List.mem_cons_of_mem _ hy)) _

theorem foldl_insert_fresh (es : GHashTable) :
    ∀ t : GHashTable, ((t ++ es).map Prod.fst).Nodup →
      es.foldl (fun t e => g_hash_table_insert t e.1 e.2) t = t ++ es := by
  induction es with
  | nil => intro t _; simp
  | cons e rest ih =>
    intro t hn
    simp only [List.foldl_cons]
    have hfresh : e.1 ∉ t.map Prod.fst := by
      intro hm
      rw [List.map_append, List.nodup_append] at hn
      exact hn.2.2 hm (by simp)
    rw [insert_of_not_mem t e.1 e.2 hfresh]
    have e1 : t ++ [(e.1, e.2)] ++ rest = t ++ e :: rest := by simp
    rw [ih (t ++ [(e.1, e.2)]) (by rw [e1]; exact hn), e1]

theorem g_strsplit_entry_strings (es : GHashTable) (h : ∀ e ∈ es, entry_clean e)
    (hne : es ≠ []) :
    g_strsplit (List.intercalate [';']
        (es.map (fun e => e.1 ++ '=' :: List.intercalate [','] e.2))) ';' (-1) =
      es.map (fun e => e.1 ++ '=' :: List.intercalate [','] e.2) := by
  cases es with
  | nil => exact absurd rfl hne
  | cons e rest =>
    have hclean : ∀ q ∈ (e :: rest).map (fun e => e.1 ++ '=' :: List.intercalate [','] e.2),
        ';' ∉ q := by
      intro q hq
      rcases List.mem_map.1 hq with ⟨x, hx, rfl⟩
      exact entry_string_no_semicolon x (h x hx)
    have hnil : List.intercalate [';']
        ((e :: rest).map (fun e => e.1 ++ '=' :: List.intercalate [','] e.2)) ≠ [] := by
      cases rest with
      | nil => simp [intercalate_single]
      | cons y ys => simp only [List.map_cons]; rw [intercalate_cons_cons]; simp
    rw [g_strsplit_complete_ne_nil _ _ hnil]
    simp only [List.map_cons] at hclean ⊢
    rw [split_complete_intercalate ';' _ _ hclean]

theorem new_params_of_entry_strings (es : GHashTable) (h : ∀ e ∈ es, entry_clean e)
    (hn : (es.map Prod.fst).Nodup) (hne : es ≠ []) :
    (gst_droidcamsrc_params_new (List.intercalate [';']
        (es.map (fun e => e.1 ++ '=' :: List.intercalate [','] e.2)))).params = es := by
  unfold gst_droidcamsrc_params_new
  simp only
  rw [g_strsplit_entry_strings es h hne, foldl_parse_entry_strings es h []]
  have := foldl_insert_fresh es [] (by simpa using hn)
  simpa using this

theorem first_delim_unique (d : Char) (k : List Char) :
    ∀ k' v v' : List Char, d ∉ k → d ∉ k' → k ++ d :: v = k' ++ d :: v' → k = k' ∧ v = v' := by
  induction k with
  | nil =>
    intro k' v v' _ hk' e
    cases k' with
    | nil => simpa using e
    | cons c cs =>
      simp only [List.nil_append, List.cons_append, List.cons.injEq] at e
      exact absurd (e.1 ▸ List.mem_cons_self _ _) hk'
  | cons a as ih =>
    intro k' v v' hk hk' e
    cases k' with
    | nil =>
      simp only [List.nil_append, List.cons_append, List.cons.injEq] at e
      exact absurd (e.1 ▸ List.mem_cons_self _ _) hk
    | cons c cs =>
      simp only [List.cons_append, List.cons.injEq] at e
      have := ih cs v v' (fun h => hk (List.mem_cons_of_mem _ h))
        (fun h => hk' (List.mem_cons_of_mem _ h)) e.2
      exact ⟨by rw [e.1, this.1], this.2⟩

theorem lookup_parse_step (t : GHashTable) (e k : List Char) :
    g_hash_table_lookup (gst_droidcamsrc_params_parse t e) k =
      (g_hash_table_lookup (gst_droidcamsrc_params_parse [] e) k).or
        (g_hash_table_lookup t k) := by
  rcases parse_cases e with ⟨_, hq⟩ | ⟨k', v, _, _, hq⟩
  · rw [hq t, hq []]
    simp [g_hash_table_lookup]
  · rw [hq t, hq [], lookup_insert, lookup_insert]
    by_cases h : k' = k <;> simp [h, g_hash_table_lookup]

theorem lookup_foldl_parse (parts : List (List Char)) (k : List Char) :
    ∀ t : GHashTable,
      g_hash_table_lookup (parts.foldl gst_droidcamsrc_params_parse t) k =
        (parts.reverse.findSome?
          (fun e => g_hash_table_lookup (gst_droidcamsrc_params_parse [] e) k)).or
          (g_hash_table_lookup t k) := by
  induction parts with
  | nil => intro t; simp
  | cons p ps ih =>
    intro t
    simp only [List.foldl_cons, List.reverse_cons, List.findSome?_append]
    rw [ih, lookup_parse_step, Option.or_assoc]
    congr 1
    simp only [List.findSome?_cons, List.findSome?_nil]
    cases g_hash_table_lookup (gst_droidcamsrc_params_parse [] p) k <;> simp

theorem lookup_parse_single_ne_none (e k : List Char) :
    g_hash_table_lookup (gst_droidcamsrc_params_parse [] e) k ≠ none ↔
      ∃ v, e = k ++ '=' :: v ∧ '=' ∉ k := by
  rcases parse_cases e with ⟨hn, hq⟩ | ⟨k', v, he, hk', hq⟩
  · rw [hq []]
    simp only [g_hash_table_lookup, ne_eq, not_true_eq_false, false_iff]
    rintro ⟨v, he, _⟩
    apply hn
    rw [he]
    simp
  · rw [hq [], lookup_insert]
    constructor
    · intro h
      by_cases hkk : k' = k
      · exact ⟨v, hkk ▸ he, hkk ▸ hk'⟩
      · simp [hkk, g_hash_table_lookup] at h
    · rintro ⟨v', he', hk⟩
      have := first_delim_unique '=' k' k v v' hk' hk (he.symm.trans he')
      simp [this.1]

theorem lookup_new_eq_none_iff (text k : List Char) :
    g_hash_table_lookup (gst_droidcamsrc_params_new text).params k = none ↔
      ∀ e ∈ g_strsplit text ';' (-1), ¬ ∃ v, e = k ++ '=' :: v ∧ '=' ∉ k := by
  unfold gst_droidcamsrc_params_new
  simp only
  rw [lookup_foldl_parse]
  simp only [g_hash_table_lookup, Option.or_none, List.findSome?_eq_none_iff,
    List.mem_reverse]
  constructor
  · intro h e he hex
    exact (lookup_parse_single_ne_none e k).2 hex (h e he)
  · intro h e he
    by_contra hc
    exact h e he ((lookup_parse_single_ne_none e k).1 hc)

theorem foldl_parse_pieces (s : List Char) (t : GHashTable) :
    ((split_complete ';' s).1 :: (split_complete ';' s).2).foldl
        gst_droidcamsrc_params_parse t =
      (g_strsplit s ';' (-1)).foldl gst_droidcamsrc_params_parse t := by
  by_cases h : s = []
  · subst h
    simp [split_complete, g_strsplit, parse_of_not_mem]
  · rw [g_strsplit_complete_ne_nil s ';' h]

/-! ## Lemmas on the capability projection -/

theorem viewfinder_fold_eq (fps : Int) (item : List (List Char)) :
    ∀ caps : GstCaps,
      item.foldl (gst_droidcamsrc_params_get_viewfinder_caps_item fps) caps =
        (item.filterMap (fun d =>
          if (gst_droidcamsrc_params_parse_dimension d).1 then
            some ({ width := (gst_droidcamsrc_params_parse_dimension d).2.1,
                    height := (gst_droidcamsrc_params_parse_dimension d).2.2,
                    fps_n := fps, fps_d := 1,
                    features := GstCapsFeatures.MEMORY_DROID_SURFACE } : GstStructure)
          else none)).foldl gst_caps_merge_structure_full caps := by
  induction item with
  | nil => intro caps; rfl
  | cons d ds ih =>
    intro caps
    simp only [List.foldl_cons, List.filterMap_cons]
    rw [ih]
    by_cases h : (gst_droidcamsrc_params_parse_dimension d).1 = true
    · simp [gst_droidcamsrc_params_get_viewfinder_caps_item, h, gst_caps_merge]
    · simp [gst_droidcamsrc_params_get_viewfinder_caps_item, h]

theorem merge_fold_eq (l : GstCaps) :
    l.foldl gst_caps_merge_structure_full [] = (l.reverse.dedup).reverse := by
  induction l using List.reverseRecOn with
  | nil => rfl
  | append_singleton l a ih =>
    rw [List.foldl_append, ih]
    simp only [List.foldl_cons, List.foldl_nil, List.reverse_append, List.reverse_cons,
      List.reverse_nil, List.nil_append, List.singleton_append]
    unfold gst_caps_merge_structure_full
    by_cases h : a ∈ l
    · have h1 : a ∈ (l.reverse.dedup).reverse := by simpa using h
      have h2 : a ∈ l.reverse := by simpa using h
      rw [if_pos h1, List.dedup_cons_of_mem h2]
    · have h1 : a ∉ (l.reverse.dedup).reverse := by simpa using h
      have h2 : a ∉ l.reverse := by simpa using h
      rw [if_neg h1, List.dedup_cons_of_not_mem h2]
      simp

theorem merge_fold_nodup (l : GstCaps) (h : l.Nodup) :
    l.foldl gst_caps_merge_structure_full [] = l := by
  rw [merge_fold_eq, List.Nodup.dedup (List.nodup_reverse.2 h), List.reverse_reverse]

/-! ## Lemmas on the executions -/

theorem to_string_exec_free (iter : GHashTable → GHashTable) (s : Exec)
    (h : s.params.lock = false) :
    gst_droidcamsrc_params_to_string_exec iter s =
      match gst_droidcamsrc_params_to_string iter s.params with
      | Except.error e =>
        some (Except.error e,
          { params := { s.params with lock := true }, calls := s.calls ++ [GMutexCall.lock] })
      | Except.ok string =>
        some (Except.ok string,
          { params := s.params, calls := s.calls ++ [GMutexCall.lock, GMutexCall.unlock] }) := by
  obtain ⟨⟨t, l, d⟩, calls⟩ := s
  simp only at h
  subst h
  have e : gst_droidcamsrc_params_to_string iter { params := t, lock := true, is_dirty := d } =
      gst_droidcamsrc_params_to_string iter { params := t, lock := false, is_dirty := d } := rfl
  simp only [gst_droidcamsrc_params_to_string_exec, g_mutex_lock, Bool.false_eq_true,
    if_false, e]
  cases hr : gst_droidcamsrc_params_to_string iter
      { params := t, lock := false, is_dirty := d } with
  | error e => rfl
  | ok string => simp [g_mutex_unlock]

theorem is_dirty_exec_free (s : Exec) (h : s.params.lock = false) :
    gst_droidcamsrc_params_is_dirty_exec s =
      some (gst_droidcamsrc_params_is_dirty s.params,
        { params := s.params, calls := s.calls ++ [GMutexCall.lock, GMutexCall.unlock] }) := by
  obtain ⟨⟨t, l, d⟩, calls⟩ := s
  simp only at h
  subst h
  simp [gst_droidcamsrc_params_is_dirty_exec, g_mutex_lock, g_mutex_unlock,
    gst_droidcamsrc_params_is_dirty]

theorem get_viewfinder_caps_exec_free (s : Exec) (h : s.params.lock = false) :
    gst_droidcamsrc_params_get_viewfinder_caps_exec s =
      some (gst_droidcamsrc_params_get_viewfinder_caps s.params,
        { params := s.params, calls := s.calls ++ [GMutexCall.lock, GMutexCall.unlock] }) := by
  obtain ⟨⟨t, l, d⟩, calls⟩ := s
  simp only at h
  subst h
  have e1 : ∀ k, gst_droidcamsrc_params_get_int_locked
      { params := t, lock := true, is_dirty := d } k =
      gst_droidcamsrc_params_get_int_locked { params := t, lock := false, is_dirty := d } k :=
    fun _ => rfl
  have e2 : ∀ k, gst_droidcamsrc_params_get_item_locked
      { params := t, lock := true, is_dirty := d } k =
      gst_droidcamsrc_params_get_item_locked { params := t, lock := false, is_dirty := d } k :=
    fun _ => rfl
  simp only [gst_droidcamsrc_params_get_viewfinder_caps_exec, g_mutex_lock,
    Bool.false_eq_true, if_false, e1, e2, gst_droidcamsrc_params_get_viewfinder_caps,
    gst_droidcamsrc_params_get_viewfinder_caps_unlock_and_out, g_mutex_unlock, if_true]
  split
  · simp
  · split <;> simp

theorem get_video_caps_exec_free (s : Exec) (h : s.params.lock = false) :
    gst_droidcamsrc_params_get_video_caps_exec s =
      some (gst_droidcamsrc_params_get_video_caps s.params,
        { params := s.params, calls := s.calls ++ [GMutexCall.lock, GMutexCall.unlock] }) := by
  obtain ⟨⟨t, l, d⟩, calls⟩ := s
  simp only at h
  subst h
  simp [gst_droidcamsrc_params_get_video_caps_exec, g_mutex_lock, g_mutex_unlock,
    gst_droidcamsrc_params_get_video_caps]

theorem get_image_caps_exec_free (s : Exec) (h : s.params.lock = false) :
    gst_droidcamsrc_params_get_image_caps_exec s =
      some (gst_droidcamsrc_params_get_image_caps s.params,
        { params := s.params, calls := s.calls ++ [GMutexCall.lock, GMutexCall.unlock] }) := by
  obtain ⟨⟨t, l, d⟩, calls⟩ := s
  simp only at h
  subst h
  simp [gst_droidcamsrc_params_get_image_caps_exec, g_mutex_lock, g_mutex_unlock,
    gst_droidcamsrc_params_get_image_caps]

theorem to_string_ok_of_nonempty (iter : GHashTable → GHashTable)
    (hiter : ∀ t : GHashTable, (iter t).Perm t) (params : GstDroidCamSrcParams)
    (h : ∀ e ∈ params.params, e.2 ≠ []) :
    ∃ string, gst_droidcamsrc_params_to_string iter params = Except.ok string := by
  have hp := hiter params.params
  have hne : ∀ e ∈ iter params.params, e.2 ≠ [] := fun e he => h e (hp.mem_iff.1 he)
  by_cases hnil : iter params.params = []
  · refine ⟨none, ?_⟩
    unfold gst_droidcamsrc_params_to_string
    rw [hnil]
    rfl
  · exact ⟨_, to_string_fold _ hne hnil⟩

theorem digits_value_of_not_digit (acc : Nat) (r : List Char)
    (h : starts_with_digit r = false) : digits_value acc r = acc := by
  cases r with
  | nil => rfl
  | cons c cs =>
    simp only [starts_with_digit] at h
    simp [digits_value, h]

theorem atoi_of_no_digits (nptr : List Char) (h : no_digits nptr = true) : atoi nptr = 0 := by
  have hs : strtol nptr = 0 := by
    unfold no_digits at h
    unfold strtol
    split at h <;> rename_i heq <;> simp only [heq] <;>
      simp only [Bool.not_eq_true'] at h <;>
      simp [digits_value_of_not_digit 0 _ h]
  unfold atoi
  rw [hs]
  decide

theorem call_public_free (iter : GHashTable → GHashTable) (op : PublicOp) (s : Exec)
    (h : s.params.lock = false)
    (hok : ∃ string, gst_droidcamsrc_params_to_string iter s.params = Except.ok string) :
    call_public iter op s =
      some { params := s.params, calls := s.calls ++ [GMutexCall.lock, GMutexCall.unlock] } := by
  cases op with
  | to_string =>
    obtain ⟨string, hs⟩ := hok
    simp only [call_public, to_string_exec_free iter s h, hs]
  | is_dirty => simp [call_public, is_dirty_exec_free s h]
  | get_viewfinder_caps => simp [call_public, get_viewfinder_caps_exec_free s h]
  | get_video_caps => simp [call_public, get_video_caps_exec_free s h]
  | get_image_caps => simp [call_public, get_image_caps_exec_free s h]

theorem call_sequence_free (iter : GHashTable → GHashTable) (ops : List PublicOp) :
    ∀ s : Exec, s.params.lock = false →
      (∃ string, gst_droidcamsrc_params_to_string iter s.params = Except.ok string) →
      ∃ calls, call_sequence iter ops s = some { params := s.params, calls := calls } := by
  induction ops with
  | nil => intro s _ _; exact ⟨s.calls, rfl⟩
  | cons op ops ih =>
    intro s h hok
    simp only [call_sequence, call_public_free iter op s h hok]
    exact ih { params := s.params, calls := s.calls ++ [GMutexCall.lock, GMutexCall.unlock] }
      h hok

theorem viewfinder_caps_eq (params : GstDroidCamSrcParams) :
    gst_droidcamsrc_params_get_viewfinder_caps params =
      if gst_droidcamsrc_params_get_int_locked params "preview-frame-rate".toList = -1 then
        some []
      else
        some ((((gst_droidcamsrc_params_get_item_locked params
          "preview-size-values".toList).filterMap (fun d =>
            if (gst_droidcamsrc_params_parse_dimension d).1 then
              some ({ width := (gst_droidcamsrc_params_parse_dimension d).2.1,
                      height := (gst_droidcamsrc_params_parse_dimension d).2.2,
                      fps_n := gst_droidcamsrc_params_get_int_locked params
                        "preview-frame-rate".toList,
                      fps_d := 1,
                      features := GstCapsFeatures.MEMORY_DROID_SURFACE } : GstStructure)
            else none)).reverse.dedup).reverse) := by
  unfold gst_droidcamsrc_params_get_viewfinder_caps
  by_cases hfps : gst_droidcamsrc_params_get_int_locked params "preview-frame-rate".toList = -1
  · simp only [hfps, if_true]
  · simp only [hfps, if_false]
    by_cases hnil : gst_droidcamsrc_params_get_item_locked params
        "preview-size-values".toList = []
    · simp only [hnil, if_true]
      rfl
    · simp only [hnil, if_false]
      rw [viewfinder_fold_eq, merge_fold_eq]

theorem mem_first_occurrences (l : GstCaps) (r : GstStructure) :
    r ∈ (l.reverse.dedup).reverse ↔ r ∈ l := by
  simp

theorem first_occurrences_eq_nil (l : GstCaps) : (l.reverse.dedup).reverse = [] ↔ l = [] := by
  simp [List.dedup_eq_nil]

theorem get_int_locked_ne_sentinel (params : GstDroidCamSrcParams) (key : List Char) :
    gst_droidcamsrc_params_get_int_locked params key ≠ -1 ↔
      ∃ data rest, g_hash_table_lookup params.params key = some (data :: rest) ∧
        atoi data ≠ -1 := by
  unfold gst_droidcamsrc_params_get_int_locked gst_droidcamsrc_params_get_item_locked
  cases h : g_hash_table_lookup params.params key with
  | none => simp
  | some list =>
    cases list with
    | nil => simp
    | cons d ds => simp

theorem exists_accepted_item (params : GstDroidCamSrcParams) (key : List Char)
    (p : List Char → Prop) :
    (∃ d ∈ gst_droidcamsrc_params_get_item_locked params key, p d) ↔
      ∃ vs, g_hash_table_lookup params.params key = some vs ∧ ∃ d ∈ vs, p d := by
  unfold gst_droidcamsrc_params_get_item_locked
  cases h : g_hash_table_lookup params.params key with
  | none => simp
  | some list => simp

theorem parse_dimension_accepts (d : List Char) :
    (gst_droidcamsrc_params_parse_dimension d).1 = true ↔
      ∃ a b rest, g_strsplit d 'x' (-1) = a :: b :: rest ∧ atoi a ≠ -1 ∧ atoi b ≠ -1 := by
  unfold gst_droidcamsrc_params_parse_dimension
  cases h : g_strsplit d 'x' (-1) with
  | nil => simp
  | cons a l =>
    cases l with
    | nil =>
      by_cases ha : atoi a = -1 <;> simp [ha]
    | cons b rest =>
      by_cases ha : atoi a = -1
      · simp [ha]
      · simp only [List.get?_cons_zero, List.get?_cons_succ, ne_eq, ha, not_false_eq_true,
          if_true, decide_True, Bool.true_and, decide_eq_true_eq, List.cons.injEq]
        constructor
        · intro hb
          exact ⟨a, b, rest, ⟨rfl, rfl, rfl⟩, ha, hb⟩
        · rintro ⟨a', b', rest', ⟨rfl, rfl, _⟩, _, hb⟩
          exact hb

theorem parse_dimension_values (d : List Char)
    (h : (gst_droidcamsrc_params_parse_dimension d).1 = true) :
    (gst_droidcamsrc_params_parse_dimension d).2.1 ≠ -1 ∧
      (gst_droidcamsrc_params_parse_dimension d).2.2 ≠ -1 := by
  unfold gst_droidcamsrc_params_parse_dimension at h ⊢
  simp only [Bool.and_eq_true, decide_eq_true_eq] at h
  exact h

theorem parse_dimension_of_split (d a b : List Char) (rest : List (List Char))
    (hs : g_strsplit d 'x' (-1) = a :: b :: rest) (ha : atoi a ≠ -1) :
    gst_droidcamsrc_params_parse_dimension d = (decide (atoi b ≠ -1), atoi a, atoi b) := by
  unfold gst_droidcamsrc_params_parse_dimension
  rw [hs]
  simp [ha]

theorem parse_dimension_eq_iff (d : List Char) (w h : Int) :
    gst_droidcamsrc_params_parse_dimension d = (true, w, h) ↔
      ∃ a b rest, g_strsplit d 'x' (-1) = a :: b :: rest ∧ atoi a ≠ -1 ∧ atoi b ≠ -1 ∧
        w = atoi a ∧ h = atoi b := by
  constructor
  · intro he
    have hacc : (gst_droidcamsrc_params_parse_dimension d).1 = true := by rw [he]
    obtain ⟨a, b, rest, hs, ha, hb⟩ := (parse_dimension_accepts d).1 hacc
    rw [parse_dimension_of_split d a b rest hs ha] at he
    simp only [Prod.mk.injEq] at he
    exact ⟨a, b, rest, hs, ha, hb, he.2.1.symm, he.2.2.symm⟩
  · rintro ⟨a, b, rest, hs, ha, hb, rfl, rfl⟩
    rw [parse_dimension_of_split d a b rest hs ha]
    simp [hb]

/-! ## The claims -/

/-- C1 (amended): for every wire string `s` whose parse binds at least one key,
and whatever the order in which the table is iterated,
`gst_droidcamsrc_params_to_string` returns a string, and parsing that string
gives a table with the same keys as the parse of `s`, each bound to the same
value sequence. -/
theorem C1_parse_serialize_parse (iter : GHashTable → GHashTable)
    (hiter : ∀ t : GHashTable, (iter t).Perm t) (s : List Char)
    (hne : (gst_droidcamsrc_params_new s).params ≠ []) :
    ∃ out, gst_droidcamsrc_params_to_string iter (gst_droidcamsrc_params_new s) =
        Except.ok (some out) ∧
      ∀ key, g_hash_table_lookup (gst_droidcamsrc_params_new out).params key =
        g_hash_table_lookup (gst_droidcamsrc_params_new s).params key := by
  have hp := hiter (gst_droidcamsrc_params_new s).params
  have hclean : ∀ e ∈ iter (gst_droidcamsrc_params_new s).params, entry_clean e :=
    fun e he => new_clean s e (hp.mem_iff.1 he)
  have hnodup : ((iter (gst_droidcamsrc_params_new s).params).map Prod.fst).Nodup :=
    (hp.map Prod.fst).nodup_iff.2 (new_nodup s)
  have hne' : iter (gst_droidcamsrc_params_new s).params ≠ [] := by
    intro e
    rw [e] at hp
    exact hne (List.perm_nil.1 hp.symm)
  refine ⟨_, to_string_fold _ (fun e he => (hclean e he).2.2.1) hne', ?_⟩
  intro key
  rw [new_params_of_entry_strings _ hclean hnodup hne']
  exact lookup_perm _ _ hp (new_nodup s) key

/-- C1 (witness): the round trip of `a=1;b=2,3`, with the table iterated backwards. -/
theorem C1_parse_serialize_parse_witness :
    (∀ t : GHashTable, (List.reverse t).Perm t) ∧
    (gst_droidcamsrc_params_new "a=1;b=2,3".toList).params ≠ [] ∧
    ∃ out, gst_droidcamsrc_params_to_string List.reverse
        (gst_droidcamsrc_params_new "a=1;b=2,3".toList) = Except.ok (some out) ∧
      ∀ key, g_hash_table_lookup (gst_droidcamsrc_params_new out).params key =
        g_hash_table_lookup (gst_droidcamsrc_params_new "a=1;b=2,3".toList).params key :=
  ⟨fun t => List.reverse_perm t, by decide,
    C1_parse_serialize_parse List.reverse (fun t => List.reverse_perm t) "a=1;b=2,3".toList
      (by decide)⟩

/-- C1 (counterexample): the parse of the empty text binds no key, and
`gst_droidcamsrc_params_to_string` returns `NULL` for it: there is no output
string to parse again. -/
theorem C1_counterexample_empty_text :
    gst_droidcamsrc_params_to_string id (gst_droidcamsrc_params_new "".toList) =
        Except.ok none ∧
    ¬ ∃ out, gst_droidcamsrc_params_to_string id (gst_droidcamsrc_params_new "".toList) =
        Except.ok (some out) ∧
      ∀ key, g_hash_table_lookup (gst_droidcamsrc_params_new out).params key =
        g_hash_table_lookup (gst_droidcamsrc_params_new "".toList).params key := by
  have h : gst_droidcamsrc_params_to_string id (gst_droidcamsrc_params_new "".toList) =
      Except.ok none := rfl
  refine ⟨h, ?_⟩
  rintro ⟨out, ho, _⟩
  rw [h] at ho
  cases ho

/-- C2: for every store with at least one key, each key bound to a non-empty
list, `gst_droidcamsrc_params_to_string` returns, for an ordering of the
bindings that lists each of them once, the `;`-join of the per-key strings
`key ++ "=" ++ (","-join of the values)`; and for a non-empty list the
`len == 1` branch and the `len > 1` loop both make exactly that per-key
string, the values in stored order. -/
theorem C2_to_string_format (iter : GHashTable → GHashTable)
    (hiter : ∀ t : GHashTable, (iter t).Perm t) (params : GstDroidCamSrcParams)
    (hne : params.params ≠ []) (hlen : ∀ e ∈ params.params, 0 < g_list_length e.2) :
    (∃ order : GHashTable, order.Perm params.params ∧
      ((params.params.map Prod.fst).Nodup → (order.map Prod.fst).Nodup) ∧
      gst_droidcamsrc_params_to_string iter params =
        Except.ok (some (List.intercalate [';']
          (order.map (fun e => e.1 ++ ['='] ++ List.intercalate [','] e.2))))) ∧
    (∀ key data, gst_droidcamsrc_params_to_string_entry key [data] =
      some (key ++ ['='] ++ List.intercalate [','] [data])) ∧
    (∀ key list, 1 < g_list_length list →
      gst_droidcamsrc_params_to_string_entry key list =
        some (key ++ ['='] ++ List.intercalate [','] list)) := by
  have hp := hiter params.params
  have hne' : iter params.params ≠ [] := by
    intro e
    rw [e] at hp
    exact hne (List.perm_nil.1 hp.symm)
  have hlen' : ∀ e ∈ iter params.params, e.2 ≠ [] := by
    intro e he h0
    have := hlen e (hp.mem_iff.1 he)
    rw [h0] at this
    simp [g_list_length] at this
  refine ⟨⟨iter params.params, hp, fun hn => (hp.map Prod.fst).nodup_iff.2 hn, ?_⟩, ?_, ?_⟩
  · unfold gst_droidcamsrc_params_to_string
    rw [to_string_fold _ hlen' hne']
    simp
  · intro key data
    rw [to_string_entry_eq key [data] (by simp)]
    simp
  · intro key list hl
    have : list ≠ [] := by
      intro e
      rw [e] at hl
      simp [g_list_length] at hl
    rw [to_string_entry_eq key list this]
    simp

/-- C2 (witness): the store parsed from `a=1;b=2,3`. -/
theorem C2_to_string_format_witness :
    (gst_droidcamsrc_params_new "a=1;b=2,3".toList).params ≠ [] ∧
    (∀ e ∈ (gst_droidcamsrc_params_new "a=1;b=2,3".toList).params, 0 < g_list_length e.2) ∧
    (∃ order : GHashTable, order.Perm (gst_droidcamsrc_params_new "a=1;b=2,3".toList).params ∧
      (((gst_droidcamsrc_params_new "a=1;b=2,3".toList).params.map Prod.fst).Nodup →
        (order.map Prod.fst).Nodup) ∧
      gst_droidcamsrc_params_to_string id (gst_droidcamsrc_params_new "a=1;b=2,3".toList) =
        Except.ok (some (List.intercalate [';']
          (order.map (fun e => e.1 ++ ['='] ++ List.intercalate [','] e.2))))) ∧
    (∀ key data, gst_droidcamsrc_params_to_string_entry key [data] =
      some (key ++ ['='] ++ List.intercalate [','] [data])) ∧
    (∀ key list, 1 < g_list_length list →
      gst_droidcamsrc_params_to_string_entry key list =
        some (key ++ ['='] ++ List.intercalate [','] list)) :=
  ⟨by decide, by decide,
    C2_to_string_format id (fun t => List.Perm.refl t)
      (gst_droidcamsrc_params_new "a=1;b=2,3".toList) (by decide) (by decide)⟩

/-- C3: for a single entry `k ++ "=" ++ v`, where `k` has no `=` and no `;` and
`v` has no `;`, serializing the parsed store gives back the entry character
for character; so `a=1` gives `a=1` and `a=1,2,3` gives `a=1,2,3`. -/
theorem C3_single_entry_roundtrip (iter : GHashTable → GHashTable)
    (hiter : ∀ t : GHashTable, (iter t).Perm t) (k v : List Char)
    (hk1 : '=' ∉ k) (hk2 : ';' ∉ k) (hv : ';' ∉ v) :
    gst_droidcamsrc_params_to_string iter (gst_droidcamsrc_params_new (k ++ ['='] ++ v)) =
      Except.ok (some (k ++ ['='] ++ v)) := by
  have e0 : k ++ ['='] ++ v = k ++ '=' :: v := by simp
  rw [e0]
  have hne : k ++ '=' :: v ≠ [] := by simp
  have hsemi : ';' ∉ k ++ '=' :: v := by
    intro hc
    simp only [List.mem_append, List.mem_cons] at hc
    rcases hc with hc | hc | hc
    · exact hk2 hc
    · exact absurd hc (by decide)
    · exact hv hc
  have hparams : (gst_droidcamsrc_params_new (k ++ '=' :: v)).params =
      [(k, if ',' ∈ v then (split_complete ',' v).1 :: (split_complete ',' v).2 else [v])] := by
    unfold gst_droidcamsrc_params_new
    simp only
    rw [g_strsplit_complete_ne_nil _ _ hne, split_complete_of_not_mem ';' _ hsemi]
    simp only [List.foldl_cons, List.foldl_nil]
    rw [parse_append [] k v hk1, parse_key_value_eq]
    rfl
  have hp := hiter (gst_droidcamsrc_params_new (k ++ '=' :: v)).params
  rw [hparams, List.perm_singleton] at hp
  unfold gst_droidcamsrc_params_to_string
  rw [hparams, hp, to_string_fold _ (by intro e he; simp at he; rw [he]; split <;> simp)
    (by simp)]
  simp only [List.map_cons, List.map_nil, intercalate_single]
  by_cases hc : ',' ∈ v
  · simp only [hc, if_true, split_complete_join]
  · simp only [hc, if_false, intercalate_single]

/-- C3 (witness): `a=1,2,3` is given back unchanged. -/
theorem C3_single_entry_roundtrip_witness :
    '=' ∉ "a".toList ∧ ';' ∉ "a".toList ∧ ';' ∉ "1,2,3".toList ∧
    gst_droidcamsrc_params_to_string id
        (gst_droidcamsrc_params_new ("a".toList ++ ['='] ++ "1,2,3".toList)) =
      Except.ok (some ("a".toList ++ ['='] ++ "1,2,3".toList)) :=
  ⟨by decide, by decide, by decide,
    C3_single_entry_roundtrip id (fun t => List.Perm.refl t) "a".toList "1,2,3".toList
      (by decide) (by decide) (by decide)⟩

/-- C4: `gst_droidcamsrc_params_parse_key_value` binds `key` to: when `value`
has a `,`, the pieces of `value` between its commas, kept as they are (one
more piece than there are commas, no piece with a comma, empty pieces kept,
and joining the pieces with `,` gives `value` back); otherwise `[value]`. -/
theorem C4_parse_key_value_sequence (params : GHashTable) (key value : List Char) :
    ∃ stored, g_hash_table_lookup
        (gst_droidcamsrc_params_parse_key_value params key value) key = some stored ∧
      (',' ∈ value →
        g_list_length stored = value.count ',' + 1 ∧
        (∀ piece ∈ stored, ',' ∉ piece) ∧
        List.intercalate [','] stored = value) ∧
      (',' ∉ value → stored = [value]) := by
  refine ⟨if ',' ∈ value then (split_complete ',' value).1 :: (split_complete ',' value).2
    else [value], ?_, ?_, ?_⟩
  · rw [parse_key_value_eq, lookup_insert]
    simp only [if_true]
  · intro h
    simp only [h, if_true]
    refine ⟨?_, split_complete_no_delim ',' value, split_complete_join ',' value⟩
    simp [g_list_length, split_complete_length]
  · intro h
    simp only [h, if_false]

/-- C5: for every text and key `k`, the list bound to `k` after
`gst_droidcamsrc_params_new` is the one made by the last `;`-separated entry
of the text that binds `k` (an earlier binding is replaced, not merged), and
`k` is unbound exactly when no entry is `k`, then `=`, then a value. So
`a=1;a=2` binds `a` to `["2"]` only, and `a=1;b=2` binds two keys. -/
theorem C5_last_write_wins (text k : List Char) :
    g_hash_table_lookup (gst_droidcamsrc_params_new text).params k =
      (g_strsplit text ';' (-1)).reverse.findSome?
        (fun entry => g_hash_table_lookup (gst_droidcamsrc_params_parse [] entry) k) ∧
    (g_hash_table_lookup (gst_droidcamsrc_params_new text).params k = none ↔
      ∀ entry ∈ g_strsplit text ';' (-1), ¬ ∃ v, entry = k ++ ['='] ++ v ∧ '=' ∉ k) ∧
    (gst_droidcamsrc_params_new "a=1;a=2".toList).params = [("a".toList, ["2".toList])] ∧
    (gst_droidcamsrc_params_new "a=1;b=2".toList).params =
      [("a".toList, ["1".toList]), ("b".toList, ["2".toList])] := by
  refine ⟨?_, ?_, by decide, by decide⟩
  · unfold gst_droidcamsrc_params_new
    simp only
    rw [lookup_foldl_parse]
    simp [g_hash_table_lookup]
  · rw [lookup_new_eq_none_iff]
    simp

/-- C6: an entry without `=` is dropped: when `bad` has no `=` and no `;`, the
stores made from `bad;s` and from `s;bad` are the store made from `s`; so
`bad;key=value` binds `key` to `["value"]` and nothing else. -/
theorem C6_entry_without_equals_dropped (bad s : List Char)
    (h1 : '=' ∉ bad) (h2 : ';' ∉ bad) :
    gst_droidcamsrc_params_new (bad ++ [';'] ++ s) = gst_droidcamsrc_params_new s ∧
    gst_droidcamsrc_params_new (s ++ [';'] ++ bad) = gst_droidcamsrc_params_new s := by
  have e1 : bad ++ [';'] ++ s = bad ++ ';' :: s := by simp
  have e2 : s ++ [';'] ++ bad = s ++ ';' :: bad := by simp
  rw [e1, e2]
  constructor
  · unfold gst_droidcamsrc_params_new
    simp only [GstDroidCamSrcParams.mk.injEq, and_true]
    rw [g_strsplit_complete_ne_nil _ _ (by simp), split_complete_append,
      split_complete_of_not_mem ';' bad h2]
    simp only [List.nil_append, List.foldl_cons, parse_of_not_mem [] bad h1]
    exact foldl_parse_pieces s []
  · unfold gst_droidcamsrc_params_new
    simp only [GstDroidCamSrcParams.mk.injEq, and_true]
    rw [g_strsplit_complete_ne_nil _ _ (by simp), split_complete_append,
      split_complete_of_not_mem ';' bad h2, ← List.cons_append, List.foldl_append]
    simp only [List.foldl_cons, List.foldl_nil, parse_of_not_mem _ bad h1]
    exact foldl_parse_pieces s []

/-- C6 (witness): `bad;key=value` and `key=value;bad` give the store of
`key=value`, which binds `key` to `["value"]`. -/
theorem C6_entry_without_equals_dropped_witness :
    '=' ∉ "bad".toList ∧ ';' ∉ "bad".toList ∧
    (gst_droidcamsrc_params_new ("bad".toList ++ [';'] ++ "key=value".toList) =
        gst_droidcamsrc_params_new "key=value".toList ∧
      gst_droidcamsrc_params_new ("key=value".toList ++ [';'] ++ "bad".toList) =
        gst_droidcamsrc_params_new "key=value".toList) ∧
    (gst_droidcamsrc_params_new "bad;key=value".toList).params =
      [("key".toList, ["value".toList])] :=
  ⟨by decide, by decide,
    C6_entry_without_equals_dropped "bad".toList "key=value".toList (by decide) (by decide),
    by decide⟩

/-- C7 (amended): an entry whose `=` is followed by nothing is kept, with one
empty value: for every key `k` without `=` or `;`, the store made from
`k ++ "="` binds `k` to `[""]`. -/
theorem C7_empty_value_is_stored (k : List Char) (h1 : '=' ∉ k) (h2 : ';' ∉ k) :
    g_hash_table_lookup (gst_droidcamsrc_params_new (k ++ ['='])).params k = some [[]] := by
  have hsemi : ';' ∉ k ++ ['='] := by
    intro hc
    simp only [List.mem_append, List.mem_singleton] at hc
    rcases hc with hc | hc
    · exact h2 hc
    · exact absurd hc (by decide)
  unfold gst_droidcamsrc_params_new
  simp only
  rw [g_strsplit_complete_ne_nil _ _ (by simp), split_complete_of_not_mem ';' _ hsemi]
  simp only [List.foldl_cons, List.foldl_nil]
  rw [parse_append [] k [] h1, parse_key_value_eq, lookup_insert]
  simp

/-- C7 (witness): `a=` binds `a` to `[""]`. -/
theorem C7_empty_value_is_stored_witness :
    '=' ∉ "a".toList ∧ ';' ∉ "a".toList ∧
    g_hash_table_lookup (gst_droidcamsrc_params_new ("a".toList ++ ['='])).params "a".toList =
      some [[]] :=
  ⟨by decide, by decide, C7_empty_value_is_stored "a".toList (by decide) (by decide)⟩

/-- C7 (counterexample): `a` has no `=` and no `;`, and the store made from
`a=` does hold an entry for `a`. -/
theorem C7_counterexample_a_equals :
    ¬ ∀ k : List Char, '=' ∉ k → ';' ∉ k →
      g_hash_table_lookup (gst_droidcamsrc_params_new (k ++ ['='])).params k = none := by
  intro h
  have := h "a".toList (by decide) (by decide)
  revert this
  decide

/-- C8: for every input text, every key of the store made by
`gst_droidcamsrc_params_new` is bound to a list of length at least 1, so the
assertion `len > 0` of `gst_droidcamsrc_params_to_string` never fails on such
a store: the function returns. -/
theorem C8_value_lists_nonempty (iter : GHashTable → GHashTable)
    (hiter : ∀ t : GHashTable, (iter t).Perm t) (text : List Char) :
    (∀ key list, g_hash_table_lookup (gst_droidcamsrc_params_new text).params key = some list →
      1 ≤ g_list_length list) ∧
    (∀ entry ∈ iter (gst_droidcamsrc_params_new text).params, 0 < g_list_length entry.2) ∧
    ∃ string, gst_droidcamsrc_params_to_string iter (gst_droidcamsrc_params_new text) =
      Except.ok string := by
  have hp := hiter (gst_droidcamsrc_params_new text).params
  have hne : ∀ e ∈ iter (gst_droidcamsrc_params_new text).params, e.2 ≠ [] :=
    fun e he => (new_clean text e (hp.mem_iff.1 he)).2.2.1
  refine ⟨?_, ?_, ?_⟩
  · intro key list h
    have := (new_clean text _ (mem_of_lookup_eq_some _ _ _ h)).2.2.1
    simp only [g_list_length]
    exact List.length_pos.2 this
  · intro e he
    simp only [g_list_length]
    exact List.length_pos.2 (hne e he)
  · by_cases hnil : iter (gst_droidcamsrc_params_new text).params = []
    · refine ⟨none, ?_⟩
      unfold gst_droidcamsrc_params_to_string
      rw [hnil]
      rfl
    · exact ⟨_, to_string_fold _ hne hnil⟩

/-- C8 (witness): the store made from `a=;b=,;;c`. -/
theorem C8_value_lists_nonempty_witness :
    (∀ t : GHashTable, (List.reverse t).Perm t) ∧
    (∀ key list,
      g_hash_table_lookup (gst_droidcamsrc_params_new "a=;b=,;;c".toList).params key =
        some list → 1 ≤ g_list_length list) ∧
    (∀ entry ∈ List.reverse (gst_droidcamsrc_params_new "a=;b=,;;c".toList).params,
      0 < g_list_length entry.2) ∧
    ∃ string, gst_droidcamsrc_params_to_string List.reverse
        (gst_droidcamsrc_params_new "a=;b=,;;c".toList) = Except.ok string :=
  ⟨fun t => List.reverse_perm t,
    C8_value_lists_nonempty List.reverse (fun t => List.reverse_perm t) "a=;b=,;;c".toList⟩

/-- C9 (amended): a key of the store made by `gst_droidcamsrc_params_new` is
the text that stands before the first `=` of a `;`-separated entry, and that
text may be empty: the empty string is a key exactly when an entry begins
with `=`. The entry `=v` is stored, under the empty key. -/
theorem C9_keys_may_be_empty (text : List Char) :
    (∀ key list, g_hash_table_lookup (gst_droidcamsrc_params_new text).params key = some list →
      ∃ entry ∈ g_strsplit text ';' (-1), ∃ v, entry = key ++ ['='] ++ v ∧ '=' ∉ key) ∧
    ((∃ list, g_hash_table_lookup (gst_droidcamsrc_params_new text).params [] = some list) ↔
      ∃ entry ∈ g_strsplit text ';' (-1), ∃ v, entry = ['='] ++ v) := by
  constructor
  · intro key list h
    by_contra hc
    have hn : g_hash_table_lookup (gst_droidcamsrc_params_new text).params key = none := by
      rw [lookup_new_eq_none_iff]
      intro e he hex
      apply hc
      rcases hex with ⟨v, hv, hk⟩
      exact ⟨e, he, v, by simpa using hv, hk⟩
    rw [hn] at h
    cases h
  · constructor
    · rintro ⟨list, h⟩
      by_contra hc
      have hn : g_hash_table_lookup (gst_droidcamsrc_params_new text).params [] = none := by
        rw [lookup_new_eq_none_iff]
        intro e he hex
        apply hc
        rcases hex with ⟨v, hv, _⟩
        exact ⟨e, he, v, by simpa using hv⟩
      rw [hn] at h
      cases h
    · rintro ⟨e, he, v, hv⟩
      cases hl : g_hash_table_lookup (gst_droidcamsrc_params_new text).params [] with
      | some list => exact ⟨list, rfl⟩
      | none =>
        rw [lookup_new_eq_none_iff] at hl
        exact absurd ⟨v, by simpa using hv, by simp⟩ (hl e he)

/-- C9 (counterexample): the store made from `=v` has the empty string as a
key, bound to `["v"]`. -/
theorem C9_counterexample_empty_key :
    g_hash_table_lookup (gst_droidcamsrc_params_new "=v".toList).params [] =
        some ["v".toList] ∧
    ¬ ∀ text key list,
      g_hash_table_lookup (gst_droidcamsrc_params_new text).params key = some list →
        key ≠ [] := by
  refine ⟨by decide, ?_⟩
  intro h
  exact h "=v".toList [] ["v".toList] (by decide) rfl

/-- C10 (amended): when `preview-frame-rate` reads as `fps`, not -1, and
`preview-size-values` is bound to `vs`,
`gst_droidcamsrc_params_get_viewfinder_caps` returns the records of the
elements of `vs` that `gst_droidcamsrc_params_parse_dimension` accepts, each
with that element's width and height, frame rate `fps`/1 and the
droid-surface tag, in the order of `vs`, where an accepted element whose
record is already in the result adds nothing (`gst_caps_merge`): one record
per distinct accepted size, at the place of its first occurrence. When the
accepted sizes are pairwise distinct this is one record per accepted
element. -/
theorem C10_viewfinder_caps (params : GstDroidCamSrcParams) (fps : Int)
    (vs : List (List Char))
    (hfps : gst_droidcamsrc_params_get_int_locked params "preview-frame-rate".toList = fps)
    (hne : fps ≠ -1)
    (hvs : g_hash_table_lookup params.params "preview-size-values".toList = some vs) :
    gst_droidcamsrc_params_get_viewfinder_caps params =
        some (((vs.filterMap (fun d =>
          if (gst_droidcamsrc_params_parse_dimension d).1 then
            some ({ width := (gst_droidcamsrc_params_parse_dimension d).2.1,
                    height := (gst_droidcamsrc_params_parse_dimension d).2.2,
                    fps_n := fps, fps_d := 1,
                    features := GstCapsFeatures.MEMORY_DROID_SURFACE } : GstStructure)
          else none)).reverse.dedup).reverse) ∧
    ((vs.filterMap (fun d =>
          if (gst_droidcamsrc_params_parse_dimension d).1 then
            some ({ width := (gst_droidcamsrc_params_parse_dimension d).2.1,
                    height := (gst_droidcamsrc_params_parse_dimension d).2.2,
                    fps_n := fps, fps_d := 1,
                    features := GstCapsFeatures.MEMORY_DROID_SURFACE } : GstStructure)
          else none)).Nodup →
      gst_droidcamsrc_params_get_viewfinder_caps params =
        some (vs.filterMap (fun d =>
          if (gst_droidcamsrc_params_parse_dimension d).1 then
            some ({ width := (gst_droidcamsrc_params_parse_dimension d).2.1,
                    height := (gst_droidcamsrc_params_parse_dimension d).2.2,
                    fps_n := fps, fps_d := 1,
                    features := GstCapsFeatures.MEMORY_DROID_SURFACE } : GstStructure)
          else none))) := by
  have hitem : gst_droidcamsrc_params_get_item_locked params "preview-size-values".toList =
      vs := by
    unfold gst_droidcamsrc_params_get_item_locked
    rw [hvs]
  have hmain : gst_droidcamsrc_params_get_viewfinder_caps params =
      some ((vs.filterMap (fun d =>
          if (gst_droidcamsrc_params_parse_dimension d).1 then
            some ({ width := (gst_droidcamsrc_params_parse_dimension d).2.1,
                    height := (gst_droidcamsrc_params_parse_dimension d).2.2,
                    fps_n := fps, fps_d := 1,
                    features := GstCapsFeatures.MEMORY_DROID_SURFACE } : GstStructure)
          else none)).foldl gst_caps_merge_structure_full []) := by
    unfold gst_droidcamsrc_params_get_viewfinder_caps
    simp only [hfps, hne, if_false, hitem]
    by_cases hnil : vs = []
    · simp [hnil]
    · simp only [hnil, if_false]
      rw [viewfinder_fold_eq]
  constructor
  · rw [hmain, merge_fold_eq]
  · intro hnd
    rw [hmain, merge_fold_nodup _ hnd]

/-- C10 (witness): the store made from
`preview-frame-rate=30;preview-size-values=640x480,1280x720,bogus` gives the
two records (640, 480, 30/1) and (1280, 720, 30/1), in this order. -/
theorem C10_viewfinder_caps_witness :
    gst_droidcamsrc_params_get_int_locked
        (gst_droidcamsrc_params_new
          "preview-frame-rate=30;preview-size-values=640x480,1280x720,bogus".toList)
        "preview-frame-rate".toList = 30 ∧
    (30 : Int) ≠ -1 ∧
    g_hash_table_lookup
        (gst_droidcamsrc_params_new
          "preview-frame-rate=30;preview-size-values=640x480,1280x720,bogus".toList).params
        "preview-size-values".toList =
      some ["640x480".toList, "1280x720".toList, "bogus".toList] ∧
    gst_droidcamsrc_params_get_viewfinder_caps
        (gst_droidcamsrc_params_new
          "preview-frame-rate=30;preview-size-values=640x480,1280x720,bogus".toList) =
      some [{ width := 640, height := 480, fps_n := 30, fps_d := 1,
              features := GstCapsFeatures.MEMORY_DROID_SURFACE },
            { width := 1280, height := 720, fps_n := 30, fps_d := 1,
              features := GstCapsFeatures.MEMORY_DROID_SURFACE }] :=
  ⟨by decide, by decide, by decide,
    ((C10_viewfinder_caps
        (gst_droidcamsrc_params_new
          "preview-frame-rate=30;preview-size-values=640x480,1280x720,bogus".toList)
        30 ["640x480".toList, "1280x720".toList, "bogus".toList]
        (by decide) (by decide) (by decide)).2 (by decide)).trans (by decide)⟩

/-- C10 (counterexample): in the store made from
`preview-frame-rate=30;preview-size-values=640x480,640x480` the frame rate is
30 and both elements of the size list are accepted, yet the result holds one
record, not one per accepted element. -/
theorem C10_counterexample_repeated_size :
    gst_droidcamsrc_params_get_int_locked
        (gst_droidcamsrc_params_new
          "preview-frame-rate=30;preview-size-values=640x480,640x480".toList)
        "preview-frame-rate".toList = 30 ∧
    g_hash_table_lookup
        (gst_droidcamsrc_params_new
          "preview-frame-rate=30;preview-size-values=640x480,640x480".toList).params
        "preview-size-values".toList =
      some ["640x480".toList, "640x480".toList] ∧
    gst_droidcamsrc_params_parse_dimension "640x480".toList = (true, 640, 480) ∧
    gst_droidcamsrc_params_get_viewfinder_caps
        (gst_droidcamsrc_params_new
          "preview-frame-rate=30;preview-size-values=640x480,640x480".toList) =
      some [{ width := 640, height := 480, fps_n := 30, fps_d := 1,
              features := GstCapsFeatures.MEMORY_DROID_SURFACE }] ∧
    gst_droidcamsrc_params_get_viewfinder_caps
        (gst_droidcamsrc_params_new
          "preview-frame-rate=30;preview-size-values=640x480,640x480".toList) ≠
      some [{ width := 640, height := 480, fps_n := 30, fps_d := 1,
              features := GstCapsFeatures.MEMORY_DROID_SURFACE },
            { width := 640, height := 480, fps_n := 30, fps_d := 1,
              features := GstCapsFeatures.MEMORY_DROID_SURFACE }] := by
  refine ⟨by decide, by decide, by decide, by decide, by decide⟩

/-- C11: when the table has no `preview-frame-rate` key,
`gst_droidcamsrc_params_get_viewfinder_caps` returns the empty caps, whatever
`preview-size-values` and the other keys hold. -/
theorem C11_no_frame_rate_key (params : GstDroidCamSrcParams)
    (h : g_hash_table_lookup params.params "preview-frame-rate".toList = none) :
    gst_droidcamsrc_params_get_viewfinder_caps params = some [] := by
  unfold gst_droidcamsrc_params_get_viewfinder_caps gst_droidcamsrc_params_get_int_locked
    gst_droidcamsrc_params_get_item_locked
  rw [h]
  rfl

/-- C11 (witness): a store with a size list and no frame rate. -/
theorem C11_no_frame_rate_key_witness :
    g_hash_table_lookup
        (gst_droidcamsrc_params_new "preview-size-values=640x480,1280x720;a=1".toList).params
        "preview-frame-rate".toList = none ∧
    gst_droidcamsrc_params_get_viewfinder_caps
        (gst_droidcamsrc_params_new "preview-size-values=640x480,1280x720;a=1".toList) =
      some [] :=
  ⟨by decide,
    C11_no_frame_rate_key
      (gst_droidcamsrc_params_new "preview-size-values=640x480,1280x720;a=1".toList)
      (by decide)⟩

/-- C12 (amended): when the first value of `preview-frame-rate` has no leading
integer (as `abc` or the empty string), the frame rate reads as 0, not as
the sentinel -1, and `gst_droidcamsrc_params_get_viewfinder_caps` goes on: it
returns the records of the accepted elements of `preview-size-values`, with
frame rate 0/1, and its result is empty exactly when no element of that list
is accepted. -/
theorem C12_non_numeric_frame_rate (params : GstDroidCamSrcParams)
    (data : List Char) (rest : List (List Char))
    (hkey : g_hash_table_lookup params.params "preview-frame-rate".toList =
      some (data :: rest))
    (hnum : no_digits data = true) :
    gst_droidcamsrc_params_get_int_locked params "preview-frame-rate".toList = 0 ∧
    gst_droidcamsrc_params_get_viewfinder_caps params =
      some ((((gst_droidcamsrc_params_get_item_locked params
        "preview-size-values".toList).filterMap (fun d =>
          if (gst_droidcamsrc_params_parse_dimension d).1 then
            some ({ width := (gst_droidcamsrc_params_parse_dimension d).2.1,
                    height := (gst_droidcamsrc_params_parse_dimension d).2.2,
                    fps_n := 0, fps_d := 1,
                    features := GstCapsFeatures.MEMORY_DROID_SURFACE } : GstStructure)
          else none)).reverse.dedup).reverse) ∧
    (gst_droidcamsrc_params_get_viewfinder_caps params = some [] ↔
      ∀ d ∈ gst_droidcamsrc_params_get_item_locked params "preview-size-values".toList,
        (gst_droidcamsrc_params_parse_dimension d).1 = false) := by
  have hint : gst_droidcamsrc_params_get_int_locked params "preview-frame-rate".toList = 0 := by
    unfold gst_droidcamsrc_params_get_int_locked gst_droidcamsrc_params_get_item_locked
    rw [hkey]
    exact atoi_of_no_digits data hnum
  have hcaps := viewfinder_caps_eq params
  rw [hint] at hcaps
  have h0 : ¬ (0 : Int) = -1 := by decide
  rw [if_neg h0] at hcaps
  refine ⟨hint, hcaps, ?_⟩
  rw [hcaps, Option.some.injEq, first_occurrences_eq_nil, List.filterMap_eq_nil_iff]
  constructor
  · intro h d hd
    have := h d hd
    by_cases hacc : (gst_droidcamsrc_params_parse_dimension d).1 = true
    · simp [hacc] at this
    · simpa using hacc
  · intro h d hd
    simp [h d hd]

/-- C12 (witness): the frame rate `abc` with the size list `640x480,bogus`. -/
theorem C12_non_numeric_frame_rate_witness :
    g_hash_table_lookup
        (gst_droidcamsrc_params_new
          "preview-frame-rate=abc;preview-size-values=640x480,bogus".toList).params
        "preview-frame-rate".toList = some ["abc".toList] ∧
    no_digits "abc".toList = true ∧
    gst_droidcamsrc_params_get_int_locked
        (gst_droidcamsrc_params_new
          "preview-frame-rate=abc;preview-size-values=640x480,bogus".toList)
        "preview-frame-rate".toList = 0 :=
  ⟨by decide, by decide,
    (C12_non_numeric_frame_rate
      (gst_droidcamsrc_params_new
        "preview-frame-rate=abc;preview-size-values=640x480,bogus".toList)
      "abc".toList [] (by decide) (by decide)).1⟩

/-- C12 (counterexample): with the frame rate `abc`, which has no leading
integer, and the size list `640x480`, the result is not empty: it holds the
record (640, 480, 0/1). The same happens with an empty frame rate value. -/
theorem C12_counterexample_abc :
    no_digits "abc".toList = true ∧
    gst_droidcamsrc_params_get_viewfinder_caps
        (gst_droidcamsrc_params_new
          "preview-frame-rate=abc;preview-size-values=640x480".toList) =
      some [{ width := 640, height := 480, fps_n := 0, fps_d := 1,
              features := GstCapsFeatures.MEMORY_DROID_SURFACE }] ∧
    gst_droidcamsrc_params_get_viewfinder_caps
        (gst_droidcamsrc_params_new
          "preview-frame-rate=abc;preview-size-values=640x480".toList) ≠ some [] ∧
    no_digits "".toList = true ∧
    gst_droidcamsrc_params_get_viewfinder_caps
        (gst_droidcamsrc_params_new
          "preview-frame-rate=;preview-size-values=640x480".toList) ≠ some [] := by
  refine ⟨by decide, by decide, by decide, by decide, by decide⟩

/-- C13 (amended): an element of `preview-size-values` yields a record exactly
when it has at least two `x`-separated pieces and `atoi` of neither of the
first two is -1; the width of the record is `atoi` of the first piece and its
height `atoi` of the second, and they need not be positive. So every record
returned by `gst_droidcamsrc_params_get_viewfinder_caps` has a width and a
height different from -1, and `axb` and `0x0` give (0, 0), `640x` gives
(640, 0), `-5x-3` gives (-5, -3). -/
theorem C13_record_sizes (params : GstDroidCamSrcParams) (caps : GstCaps)
    (h : gst_droidcamsrc_params_get_viewfinder_caps params = some caps) :
    (∀ r, r ∈ caps ↔
      gst_droidcamsrc_params_get_int_locked params "preview-frame-rate".toList ≠ -1 ∧
      ∃ d ∈ gst_droidcamsrc_params_get_item_locked params "preview-size-values".toList,
        ∃ a b rest, g_strsplit d 'x' (-1) = a :: b :: rest ∧ atoi a ≠ -1 ∧ atoi b ≠ -1 ∧
          r = { width := atoi a, height := atoi b,
                fps_n := gst_droidcamsrc_params_get_int_locked params
                  "preview-frame-rate".toList,
                fps_d := 1, features := GstCapsFeatures.MEMORY_DROID_SURFACE }) ∧
    (∀ r ∈ caps, r.width ≠ -1 ∧ r.height ≠ -1 ∧
      ∃ d ∈ gst_droidcamsrc_params_get_item_locked params "preview-size-values".toList,
        gst_droidcamsrc_params_parse_dimension d = (true, r.width, r.height)) ∧
    (∀ d w h, gst_droidcamsrc_params_parse_dimension d = (true, w, h) ↔
      ∃ a b rest, g_strsplit d 'x' (-1) = a :: b :: rest ∧ atoi a ≠ -1 ∧ atoi b ≠ -1 ∧
        w = atoi a ∧ h = atoi b) ∧
    (∀ d, (gst_droidcamsrc_params_parse_dimension d).1 = true ↔
      ∃ a b rest, g_strsplit d 'x' (-1) = a :: b :: rest ∧ atoi a ≠ -1 ∧ atoi b ≠ -1) ∧
    gst_droidcamsrc_params_parse_dimension "axb".toList = (true, 0, 0) ∧
    gst_droidcamsrc_params_parse_dimension "0x0".toList = (true, 0, 0) ∧
    gst_droidcamsrc_params_parse_dimension "640x".toList = (true, 640, 0) ∧
    gst_droidcamsrc_params_parse_dimension "-5x-3".toList = (true, -5, -3) := by
  have hmem : ∀ r, r ∈ caps ↔
      gst_droidcamsrc_params_get_int_locked params "preview-frame-rate".toList ≠ -1 ∧
      ∃ d ∈ gst_droidcamsrc_params_get_item_locked params "preview-size-values".toList,
        (gst_droidcamsrc_params_parse_dimension d).1 = true ∧
        r = { width := (gst_droidcamsrc_params_parse_dimension d).2.1,
              height := (gst_droidcamsrc_params_parse_dimension d).2.2,
              fps_n := gst_droidcamsrc_params_get_int_locked params
                "preview-frame-rate".toList,
              fps_d := 1, features := GstCapsFeatures.MEMORY_DROID_SURFACE } := by
    intro r
    rw [viewfinder_caps_eq] at h
    by_cases hfps :
        gst_droidcamsrc_params_get_int_locked params "preview-frame-rate".toList = -1
    · rw [if_pos hfps, Option.some.injEq] at h
      rw [← h]
      constructor
      · intro hr
        cases hr
      · rintro ⟨hne, _⟩
        exact absurd hfps hne
    · rw [if_neg hfps, Option.some.injEq] at h
      rw [← h, mem_first_occurrences, List.mem_filterMap]
      constructor
      · rintro ⟨d, hd, hrd⟩
        by_cases hacc : (gst_droidcamsrc_params_parse_dimension d).1 = true
        · rw [if_pos hacc, Option.some.injEq] at hrd
          exact ⟨hfps, d, hd, hacc, hrd.symm⟩
        · rw [if_neg hacc] at hrd
          cases hrd
      · rintro ⟨_, d, hd, hacc, hr⟩
        exact ⟨d, hd, by rw [if_pos hacc, hr]⟩
  refine ⟨?_, ?_, parse_dimension_eq_iff, parse_dimension_accepts,
    by decide, by decide, by decide, by decide⟩
  · intro r
    rw [hmem r]
    constructor
    · rintro ⟨hfps, d, hd, hacc, hr⟩
      obtain ⟨a, b, rest, hs, ha, hb⟩ := (parse_dimension_accepts d).1 hacc
      refine ⟨hfps, d, hd, a, b, rest, hs, ha, hb, ?_⟩
      rw [hr, parse_dimension_of_split d a b rest hs ha]
    · rintro ⟨hfps, d, hd, a, b, rest, hs, ha, hb, hr⟩
      refine ⟨hfps, d, hd, (parse_dimension_accepts d).2 ⟨a, b, rest, hs, ha, hb⟩, ?_⟩
      rw [hr, parse_dimension_of_split d a b rest hs ha]
  · intro r hr
    obtain ⟨_, d, hd, hacc, hrd⟩ := (hmem r).1 hr
    have hv := parse_dimension_values d hacc
    subst hrd
    refine ⟨hv.1, hv.2, d, hd, ?_⟩
    simp only
    rw [← hacc]

/-- C13 (witness): the store of `0x0,640x,-5x-3,bogus` at frame rate 30 gives
three records, and the record (640, 0) is there because `640x` splits into
`640` and the empty string. -/
theorem C13_record_sizes_witness :
    gst_droidcamsrc_params_get_viewfinder_caps
        (gst_droidcamsrc_params_new
          "preview-frame-rate=30;preview-size-values=0x0,640x,-5x-3,bogus".toList) =
      some [{ width := 0, height := 0, fps_n := 30, fps_d := 1,
              features := GstCapsFeatures.MEMORY_DROID_SURFACE },
            { width := 640, height := 0, fps_n := 30, fps_d := 1,
              features := GstCapsFeatures.MEMORY_DROID_SURFACE },
            { width := -5, height := -3, fps_n := 30, fps_d := 1,
              features := GstCapsFeatures.MEMORY_DROID_SURFACE }] ∧
    gst_droidcamsrc_params_get_int_locked
        (gst_droidcamsrc_params_new
          "preview-frame-rate=30;preview-size-values=0x0,640x,-5x-3,bogus".toList)
        "preview-frame-rate".toList ≠ -1 ∧
    ∃ d ∈ gst_droidcamsrc_params_get_item_locked
        (gst_droidcamsrc_params_new
          "preview-frame-rate=30;preview-size-values=0x0,640x,-5x-3,bogus".toList)
        "preview-size-values".toList,
      ∃ a b rest, g_strsplit d 'x' (-1) = a :: b :: rest ∧ atoi a ≠ -1 ∧ atoi b ≠ -1 ∧
        ({ width := 640, height := 0, fps_n := 30, fps_d := 1,
           features := GstCapsFeatures.MEMORY_DROID_SURFACE } : GstStructure) =
          { width := atoi a, height := atoi b,
            fps_n := gst_droidcamsrc_params_get_int_locked
              (gst_droidcamsrc_params_new
                "preview-frame-rate=30;preview-size-values=0x0,640x,-5x-3,bogus".toList)
              "preview-frame-rate".toList,
            fps_d := 1, features := GstCapsFeatures.MEMORY_DROID_SURFACE } :=
  ⟨by decide,
    ((C13_record_sizes
      (gst_droidcamsrc_params_new
        "preview-frame-rate=30;preview-size-values=0x0,640x,-5x-3,bogus".toList)
      [{ width := 0, height := 0, fps_n := 30, fps_d := 1,
         features := GstCapsFeatures.MEMORY_DROID_SURFACE },
       { width := 640, height := 0, fps_n := 30, fps_d := 1,
         features := GstCapsFeatures.MEMORY_DROID_SURFACE },
       { width := -5, height := -3, fps_n := 30, fps_d := 1,
         features := GstCapsFeatures.MEMORY_DROID_SURFACE }]
      (by decide)).1
      { width := 640, height := 0, fps_n := 30, fps_d := 1,
        features := GstCapsFeatures.MEMORY_DROID_SURFACE }).1 (by decide)⟩

/-- C13 (counterexample): the element `0x0` is accepted, and the store made
from `preview-frame-rate=30;preview-size-values=0x0` gives a record whose
width and height are 0. -/
theorem C13_counterexample_zero_size :
    gst_droidcamsrc_params_get_viewfinder_caps
        (gst_droidcamsrc_params_new
          "preview-frame-rate=30;preview-size-values=0x0".toList) =
      some [{ width := 0, height := 0, fps_n := 30, fps_d := 1,
              features := GstCapsFeatures.MEMORY_DROID_SURFACE }] ∧
    ¬ ∀ (params : GstDroidCamSrcParams) (caps : GstCaps),
      gst_droidcamsrc_params_get_viewfinder_caps params = some caps →
        ∀ r ∈ caps, 0 < r.width ∧ 0 < r.height := by
  refine ⟨by decide, ?_⟩
  intro h
  have := h (gst_droidcamsrc_params_new
      "preview-frame-rate=30;preview-size-values=0x0".toList)
    [{ width := 0, height := 0, fps_n := 30, fps_d := 1,
       features := GstCapsFeatures.MEMORY_DROID_SURFACE }] (by decide)
    { width := 0, height := 0, fps_n := 30, fps_d := 1,
      features := GstCapsFeatures.MEMORY_DROID_SURFACE } (List.mem_cons_self _ _)
  exact absurd this.1 (by decide)

/-- C14: `gst_droidcamsrc_params_get_int_locked` returns -1 when the key is not
in the table; when the key is bound it returns `atoi` of the first element of
its list, whatever the later elements are; `atoi` skips white space, reads an
optional sign and the leading digits, and gives 0 when there is no digit, so
a bound key whose first value is not numeric reads as 0, not -1. -/
theorem C14_get_int_locked (params : GstDroidCamSrcParams) (key : List Char) :
    (g_hash_table_lookup params.params key = none →
      gst_droidcamsrc_params_get_int_locked params key = -1) ∧
    (∀ data rest, g_hash_table_lookup params.params key = some (data :: rest) →
      gst_droidcamsrc_params_get_int_locked params key = atoi data) ∧
    (∀ data rest, g_hash_table_lookup params.params key = some (data :: rest) →
      no_digits data = true →
      gst_droidcamsrc_params_get_int_locked params key = 0) ∧
    atoi "abc".toList = 0 ∧ atoi "".toList = 0 ∧ atoi "30".toList = 30 ∧
    atoi " \t-12fps".toList = -12 ∧ atoi "+7".toList = 7 ∧
    gst_droidcamsrc_params_get_int_locked
      (gst_droidcamsrc_params_new "k=abc,5".toList) "k".toList = 0 ∧
    gst_droidcamsrc_params_get_int_locked
      (gst_droidcamsrc_params_new "k=15,abc,-1".toList) "k".toList = 15 := by
  refine ⟨?_, ?_, ?_, by decide, by decide, by decide, by decide, by decide, by decide,
    by decide⟩
  · intro h
    unfold gst_droidcamsrc_params_get_int_locked gst_droidcamsrc_params_get_item_locked
    rw [h]
  · intro data rest h
    unfold gst_droidcamsrc_params_get_int_locked gst_droidcamsrc_params_get_item_locked
    rw [h]
  · intro data rest h hn
    unfold gst_droidcamsrc_params_get_int_locked gst_droidcamsrc_params_get_item_locked
    rw [h]
    exact atoi_of_no_digits data hn

/-- C15 (amended): the store made from the empty text has an empty table, and
for a store with an empty table `gst_droidcamsrc_params_to_string` returns
`NULL`, not an empty string. -/
theorem C15_empty_table_gives_null (iter : GHashTable → GHashTable)
    (hiter : ∀ t : GHashTable, (iter t).Perm t) (params : GstDroidCamSrcParams)
    (h : params.params = []) :
    (gst_droidcamsrc_params_new []).params = [] ∧
    gst_droidcamsrc_params_to_string iter params = Except.ok none := by
  refine ⟨rfl, ?_⟩
  have hp := hiter params.params
  rw [h] at hp
  unfold gst_droidcamsrc_params_to_string
  rw [h, List.perm_nil.1 hp]
  rfl

/-- C15 (witness): the store made from the empty text. -/
theorem C15_empty_table_gives_null_witness :
    (∀ t : GHashTable, (List.reverse t).Perm t) ∧
    (gst_droidcamsrc_params_new "".toList).params = [] ∧
    ((gst_droidcamsrc_params_new []).params = [] ∧
      gst_droidcamsrc_params_to_string List.reverse (gst_droidcamsrc_params_new "".toList) =
        Except.ok none) :=
  ⟨fun t => List.reverse_perm t, by decide,
    C15_empty_table_gives_null List.reverse (fun t => List.reverse_perm t)
      (gst_droidcamsrc_params_new "".toList) (by decide)⟩

/-- C15 (counterexample): for the store made from the empty text the result of
`gst_droidcamsrc_params_to_string` is `NULL`; it is not the empty string. -/
theorem C15_counterexample_null :
    (gst_droidcamsrc_params_new "".toList).params = [] ∧
    gst_droidcamsrc_params_to_string id (gst_droidcamsrc_params_new "".toList) =
      Except.ok none ∧
    gst_droidcamsrc_params_to_string id (gst_droidcamsrc_params_new "".toList) ≠
      Except.ok (some "".toList) := by
  refine ⟨by decide, rfl, ?_⟩
  intro h
  have e : gst_droidcamsrc_params_to_string id (gst_droidcamsrc_params_new "".toList) =
      Except.ok none := rfl
  rw [e] at h
  cases h

/-- C16: for every text, `gst_droidcamsrc_params_is_dirty` is false on the store
made by `gst_droidcamsrc_params_new`, and after any sequence of the public
operations (each of which returns) the store is unchanged and
`gst_droidcamsrc_params_is_dirty` still returns false. -/
theorem C16_is_dirty_stays_false (iter : GHashTable → GHashTable)
    (hiter : ∀ t : GHashTable, (iter t).Perm t) (text : List Char) (ops : List PublicOp) :
    gst_droidcamsrc_params_is_dirty (gst_droidcamsrc_params_new text) = false ∧
    ∃ s, call_sequence iter ops { params := gst_droidcamsrc_params_new text, calls := [] } =
        some s ∧
      s.params = gst_droidcamsrc_params_new text ∧
      s.params.is_dirty = false ∧
      ∃ s2, gst_droidcamsrc_params_is_dirty_exec s = some (false, s2) := by
  refine ⟨rfl, ?_⟩
  have hok := to_string_ok_of_nonempty iter hiter (gst_droidcamsrc_params_new text)
    (fun e he => (new_clean text e he).2.2.1)
  obtain ⟨calls, hc⟩ := call_sequence_free iter ops
    { params := gst_droidcamsrc_params_new text, calls := [] } rfl hok
  refine ⟨_, hc, rfl, rfl, ?_⟩
  exact ⟨_, is_dirty_exec_free { params := gst_droidcamsrc_params_new text, calls := calls } rfl⟩

/-- C16 (witness): every public operation once, on the store of `a=1;b=2,3`. -/
theorem C16_is_dirty_stays_false_witness :
    (∀ t : GHashTable, (List.reverse t).Perm t) ∧
    gst_droidcamsrc_params_is_dirty (gst_droidcamsrc_params_new "a=1;b=2,3".toList) = false ∧
    ∃ s, call_sequence List.reverse
        [PublicOp.to_string, PublicOp.get_viewfinder_caps, PublicOp.get_video_caps,
          PublicOp.get_image_caps, PublicOp.is_dirty, PublicOp.to_string]
        { params := gst_droidcamsrc_params_new "a=1;b=2,3".toList, calls := [] } = some s ∧
      s.params = gst_droidcamsrc_params_new "a=1;b=2,3".toList ∧
      s.params.is_dirty = false ∧
      ∃ s2, gst_droidcamsrc_params_is_dirty_exec s = some (false, s2) :=
  ⟨fun t => List.reverse_perm t,
    C16_is_dirty_stays_false List.reverse (fun t => List.reverse_perm t) "a=1;b=2,3".toList
      [PublicOp.to_string, PublicOp.get_viewfinder_caps, PublicOp.get_video_caps,
        PublicOp.get_image_caps, PublicOp.is_dirty, PublicOp.to_string]⟩

/-- C17 (amended): for every store, `gst_droidcamsrc_params_get_video_caps` and
`gst_droidcamsrc_params_get_image_caps` return `NULL`, whatever the table
holds; that is not the empty caps which
`gst_droidcamsrc_params_get_viewfinder_caps` returns on its early exit. -/
theorem C17_video_image_caps_null (params : GstDroidCamSrcParams) :
    gst_droidcamsrc_params_get_video_caps params = none ∧
    gst_droidcamsrc_params_get_image_caps params = none ∧
    gst_droidcamsrc_params_get_viewfinder_caps { params with params := [] } = some [] ∧
    gst_droidcamsrc_params_get_video_caps params ≠
      gst_droidcamsrc_params_get_viewfinder_caps { params with params := [] } :=
  ⟨rfl, rfl, rfl, fun h => by cases h⟩

/-- C17 (counterexample): on the store made from `a=1`, which has no frame
rate, `gst_droidcamsrc_params_get_viewfinder_caps` returns the empty caps while
`gst_droidcamsrc_params_get_video_caps` and
`gst_droidcamsrc_params_get_image_caps` return `NULL`. -/
theorem C17_counterexample_null_caps :
    gst_droidcamsrc_params_get_viewfinder_caps (gst_droidcamsrc_params_new "a=1".toList) =
      some [] ∧
    gst_droidcamsrc_params_get_video_caps (gst_droidcamsrc_params_new "a=1".toList) ≠
      some [] ∧
    gst_droidcamsrc_params_get_image_caps (gst_droidcamsrc_params_new "a=1".toList) ≠
      some [] := by
  refine ⟨by decide, by decide, by decide⟩

/-- C18: started on a store whose mutex is free, every public operation calls
`g_mutex_lock` once, then `g_mutex_unlock` once, and returns with the store
as it was, the mutex free; this holds on the two early exits of
`gst_droidcamsrc_params_get_viewfinder_caps` as well. The one way not to
return is the failed assertion of `gst_droidcamsrc_params_to_string`, which
aborts; it cannot fail when every list of the table is non-empty. -/
theorem C18_lock_discipline (iter : GHashTable → GHashTable) (s : Exec)
    (hfree : s.params.lock = false) :
    (∀ string, gst_droidcamsrc_params_to_string iter s.params = Except.ok string →
      gst_droidcamsrc_params_to_string_exec iter s =
        some (Except.ok string,
          { params := s.params, calls := s.calls ++ [GMutexCall.lock, GMutexCall.unlock] })) ∧
    (∀ e, gst_droidcamsrc_params_to_string iter s.params = Except.error e →
      gst_droidcamsrc_params_to_string_exec iter s =
        some (Except.error e,
          { params := { s.params with lock := true },
            calls := s.calls ++ [GMutexCall.lock] })) ∧
    ((∀ t : GHashTable, (iter t).Perm t) → (∀ entry ∈ s.params.params, entry.2 ≠ []) →
      ∃ string, gst_droidcamsrc_params_to_string iter s.params = Except.ok string) ∧
    gst_droidcamsrc_params_is_dirty_exec s =
      some (gst_droidcamsrc_params_is_dirty s.params,
        { params := s.params, calls := s.calls ++ [GMutexCall.lock, GMutexCall.unlock] }) ∧
    gst_droidcamsrc_params_get_viewfinder_caps_exec s =
      some (gst_droidcamsrc_params_get_viewfinder_caps s.params,
        { params := s.params, calls := s.calls ++ [GMutexCall.lock, GMutexCall.unlock] }) ∧
    (gst_droidcamsrc_params_get_int_locked s.params "preview-frame-rate".toList = -1 →
      gst_droidcamsrc_params_get_viewfinder_caps_exec s =
        some (some [],
          { params := s.params, calls := s.calls ++ [GMutexCall.lock, GMutexCall.unlock] })) ∧
    (gst_droidcamsrc_params_get_item_locked s.params "preview-size-values".toList = [] →
      gst_droidcamsrc_params_get_viewfinder_caps_exec s =
        some (some [],
          { params := s.params, calls := s.calls ++ [GMutexCall.lock, GMutexCall.unlock] })) ∧
    gst_droidcamsrc_params_get_video_caps_exec s =
      some (none,
        { params := s.params, calls := s.calls ++ [GMutexCall.lock, GMutexCall.unlock] }) ∧
    gst_droidcamsrc_params_get_image_caps_exec s =
      some (none,
        { params := s.params, calls := s.calls ++ [GMutexCall.lock, GMutexCall.unlock] }) ∧
    ([GMutexCall.lock, GMutexCall.unlock].count GMutexCall.lock = 1 ∧
      ({ params := s.params,
         calls := s.calls ++ [GMutexCall.lock, GMutexCall.unlock] } : Exec).params.lock =
        false) := by
  refine ⟨?_, ?_, ?_, is_dirty_exec_free s hfree, get_viewfinder_caps_exec_free s hfree,
    ?_, ?_, get_video_caps_exec_free s hfree, get_image_caps_exec_free s hfree,
    by decide, hfree⟩
  · intro string h
    rw [to_string_exec_free iter s hfree, h]
  · intro e h
    rw [to_string_exec_free iter s hfree, h]
  · intro hiter hne
    exact to_string_ok_of_nonempty iter hiter s.params hne
  · intro h
    rw [get_viewfinder_caps_exec_free s hfree]
    unfold gst_droidcamsrc_params_get_viewfinder_caps
    rw [h]
    rfl
  · intro h
    rw [get_viewfinder_caps_exec_free s hfree]
    unfold gst_droidcamsrc_params_get_viewfinder_caps
    rw [h]
    simp

/-- C18 (witness): the store made from `preview-frame-rate=30`, whose size list
is absent: `gst_droidcamsrc_params_get_viewfinder_caps` leaves by its second
early exit, after one lock and one unlock. -/
theorem C18_lock_discipline_witness :
    (gst_droidcamsrc_params_new "preview-frame-rate=30".toList).lock = false ∧
    gst_droidcamsrc_params_get_item_locked
        (gst_droidcamsrc_params_new "preview-frame-rate=30".toList)
        "preview-size-values".toList = [] ∧
    gst_droidcamsrc_params_get_viewfinder_caps_exec
        { params := gst_droidcamsrc_params_new "preview-frame-rate=30".toList, calls := [] } =
      some (some [],
        { params := gst_droidcamsrc_params_new "preview-frame-rate=30".toList,
          calls := [] ++ [GMutexCall.lock, GMutexCall.unlock] }) :=
  ⟨by decide, by decide,
    (C18_lock_discipline id
      { params := gst_droidcamsrc_params_new "preview-frame-rate=30".toList, calls := [] }
      (by decide)).2.2.2.2.2.2.1 (by decide)⟩

/-- C19: in the store made by `gst_droidcamsrc_params_new`, no key has a `;` or
a `=`, no value has a `;`, the value of a one-element list has no `,`, and no
element of a longer list has a `,`. -/
theorem C19_separator_free (text key : List Char) (list : List (List Char))
    (h : g_hash_table_lookup (gst_droidcamsrc_params_new text).params key = some list) :
    ';' ∉ key ∧ '=' ∉ key ∧ (∀ v ∈ list, ';' ∉ v) ∧
    (∀ v, list = [v] → ',' ∉ v) ∧
    (1 < g_list_length list → ∀ v ∈ list, ',' ∉ v) := by
  obtain ⟨h1, h2, _, h4⟩ := new_clean text _ (mem_of_lookup_eq_some _ _ _ h)
  refine ⟨h2, h1, fun v hv => (h4 v hv).1, ?_, fun _ v hv => (h4 v hv).2⟩
  intro v hl
  exact (h4 v (by rw [hl]; exact List.mem_cons_self _ _)).2

/-- C19 (witness): the key `b` of `a=1;b=x=y,,z;c`, bound to `["x=y", "", "z"]`. -/
theorem C19_separator_free_witness :
    g_hash_table_lookup (gst_droidcamsrc_params_new "a=1;b=x=y,,z;c".toList).params
        "b".toList = some ["x=y".toList, [], "z".toList] ∧
    (';' ∉ "b".toList ∧ '=' ∉ "b".toList ∧
      (∀ v ∈ ["x=y".toList, [], "z".toList], ';' ∉ v) ∧
      (∀ v, ["x=y".toList, [], "z".toList] = [v] → ',' ∉ v) ∧
      (1 < g_list_length ["x=y".toList, [], "z".toList] →
        ∀ v ∈ ["x=y".toList, [], "z".toList], ',' ∉ v)) :=
  ⟨by decide,
    C19_separator_free "a=1;b=x=y,,z;c".toList "b".toList ["x=y".toList, [], "z".toList]
      (by decide)⟩

/-- C20: `gst_droidcamsrc_params_get_viewfinder_caps` returns a non-empty caps
exactly when `preview-frame-rate` is bound and `atoi` of its first value is not
-1, and `preview-size-values` is bound and has an element that
`gst_droidcamsrc_params_parse_dimension` accepts. A frame rate `-1` gives the
empty caps, as an absent key does; the frame rates `0` and `-5` give records
that carry them. -/
theorem C20_caps_nonempty_iff (params : GstDroidCamSrcParams) :
    ((∃ caps, gst_droidcamsrc_params_get_viewfinder_caps params = some caps ∧ caps ≠ []) ↔
      (∃ data rest, g_hash_table_lookup params.params "preview-frame-rate".toList =
          some (data :: rest) ∧ atoi data ≠ -1) ∧
      (∃ vs, g_hash_table_lookup params.params "preview-size-values".toList = some vs ∧
        ∃ d ∈ vs, (gst_droidcamsrc_params_parse_dimension d).1 = true)) ∧
    gst_droidcamsrc_params_get_viewfinder_caps
        (gst_droidcamsrc_params_new
          "preview-frame-rate=-1;preview-size-values=640x480".toList) = some [] ∧
    gst_droidcamsrc_params_get_viewfinder_caps
        (gst_droidcamsrc_params_new "preview-size-values=640x480".toList) = some [] ∧
    gst_droidcamsrc_params_get_viewfinder_caps
        (gst_droidcamsrc_params_new
          "preview-frame-rate=0;preview-size-values=640x480".toList) =
      some [{ width := 640, height := 480, fps_n := 0, fps_d := 1,
              features := GstCapsFeatures.MEMORY_DROID_SURFACE }] ∧
    gst_droidcamsrc_params_get_viewfinder_caps
        (gst_droidcamsrc_params_new
          "preview-frame-rate=-5;preview-size-values=640x480".toList) =
      some [{ width := 640, height := 480, fps_n := -5, fps_d := 1,
              features := GstCapsFeatures.MEMORY_DROID_SURFACE }] := by
  refine ⟨?_, by decide, by decide, by decide, by decide⟩
  rw [← get_int_locked_ne_sentinel, ← exists_accepted_item params _
    (fun d => (gst_droidcamsrc_params_parse_dimension d).1 = true), viewfinder_caps_eq]
  by_cases hfps : gst_droidcamsrc_params_get_int_locked params "preview-frame-rate".toList = -1
  · simp only [hfps, if_true, ne_eq, not_true_eq_false, false_and, iff_false]
    rintro ⟨caps, hc, hne⟩
    rw [Option.some.injEq] at hc
    exact hne hc.symm
  · simp only [hfps, if_false, ne_eq, not_false_eq_true, true_and]
    constructor
    · rintro ⟨caps, hc, hne⟩
      rw [Option.some.injEq] at hc
      by_contra hno
      apply hne
      rw [← hc, first_occurrences_eq_nil, List.filterMap_eq_nil_iff]
      intro d hd
      have : ¬ (gst_droidcamsrc_params_parse_dimension d).1 = true :=
        fun hacc => hno ⟨d, hd, hacc⟩
      simp [this]
    · rintro ⟨d, hd, hacc⟩
      refine ⟨_, rfl, ?_⟩
      rw [first_occurrences_eq_nil, List.filterMap_eq_nil_iff]
      intro hall
      have := hall d hd
      simp [hacc] at this

end GstDroid
